import Mathlib

/-!
Verification of the proxy-subscription converter (`main.py`).

The Python source is shallowly embedded: strings are Lean `String`s
(operated on through their `List Char` data), Python `dict`s keyed by
strings are association lists with in-place-overwrite insertion (Python
dicts preserve insertion order and keep the position of an overwritten
key), `defaultdict(int)` counters are functions `String → Nat` with
default `0`, and Python's truthiness on the string values involved is
"the string is nonempty".
-/

namespace Converter

/-! ## Character-list string primitives (Python `str` operations) -/

/-- Python `sep in s` / char membership. -/
def containsChar (l : List Char) (c : Char) : Bool :=
  l.any (fun x => x = c)

/-- Python `needle in hay` (substring containment). -/
def subList (needle hay : List Char) : Bool :=
  hay.tails.any (fun t => needle.isPrefixOf t)

/-- Python `needle in hay` on `String`s. -/
def strContains (hay needle : String) : Bool :=
  subList needle.data hay.data

/-- Python `s.split(sep)` for a one-character separator: splits on every
occurrence; `"".split(sep) == [""]`. -/
def chSplit (sep : Char) : List Char → List (List Char)
  | [] => [[]]
  | c :: rest =>
    match chSplit sep rest with
    | [] => [[]]
    | h :: t => if c = sep then [] :: h :: t else (c :: h) :: t

/-- Python `s.split(sep, 1)`: split on the first occurrence only.
Returns `none` when the separator does not occur. -/
def chSplitFirst (sep : Char) : List Char → Option (List Char × List Char)
  | [] => none
  | c :: rest =>
    if c = sep then some ([], rest)
    else match chSplitFirst sep rest with
      | none => none
      | some (a, b) => some (c :: a, b)

/-- Python whitespace for `str.strip()` / `str.split()` (no argument). -/
def isWs (c : Char) : Bool :=
  c = ' ' ∨ c = '\t' ∨ c = '\n' ∨ c = '\r' ∨ c = '\x0b' ∨ c = '\x0c'

/-- Python `s.strip()`. -/
def trimC (l : List Char) : List Char :=
  ((l.dropWhile isWs).reverse.dropWhile isWs).reverse

/-- Python `s.split()` (no argument): split on whitespace runs,
discarding empty pieces. -/
def wsSplit : List Char → List (List Char)
  | [] => []
  | c :: rest =>
    if isWs c then wsSplit rest
    else
      match wsSplit rest with
      | [] => [[c]]
      | h :: t =>
        match rest with
        | [] => [[c]]
        | r :: _ => if isWs r then [c] :: h :: t else (c :: h) :: t

/-! `String`-level wrappers. -/

def sstrip (s : String) : String := ⟨trimC s.data⟩

def ssplit (sep : Char) (s : String) : List String :=
  (chSplit sep s.data).map (fun l => ⟨l⟩)

def ssplitFirst (sep : Char) (s : String) : Option (String × String) :=
  match chSplitFirst sep s.data with
  | none => none
  | some (a, b) => some (⟨a⟩, ⟨b⟩)

def shas (s : String) (c : Char) : Bool := containsChar s.data c

/-- Python `s.startswith(p)`. -/
def sStarts (s p : String) : Bool := p.data.isPrefixOf s.data

/-- Python `f"{n:02d}"` for a nonnegative counter. -/
def pad2 (n : Nat) : String :=
  if n < 10 then "0" ++ toString n else toString n

/-- Python `s.lower()` (ASCII lowering; the strings it is applied to —
protocol types, section headers — are ASCII). -/
def slower (s : String) : String := ⟨s.data.map Char.toLower⟩

/-- Python `s.replace(old, new)` for nonempty `old` (the only uses):
left-to-right, non-overlapping. The fuel argument is the remaining
length; every hit consumes at least one character. -/
def replFuel (old new : List Char) : Nat → List Char → List Char
  | 0, l => l
  | fuel + 1, l =>
    match l with
    | [] => []
    | c :: rest =>
      if old ≠ [] ∧ old.isPrefixOf l then
        new ++ replFuel old new fuel (l.drop old.length)
      else c :: replFuel old new fuel rest

def sreplace (s old new : String) : String :=
  ⟨replFuel old.data new.data s.data.length s.data⟩

/-- Python `", ".join(items)`. -/
def sjoin (sep : String) : List String → String
  | [] => ""
  | x :: rest => rest.foldl (fun acc y => acc ++ sep ++ y) x

/-! ## Location Renamer (`LocationRenamer`, main.py lines 26-96) -/

/-- The fixed, ordered region table (`self.mappings`). Python dicts keep
insertion order, so the ordered association list is faithful. -/
def mappings : List (String × List String) :=
  [ ("HK", ["Hong Kong", "HK", "HongKong", "香港"])
  , ("TW", ["Taiwan", "TW", "Taipei", "台湾"])
  , ("JP", ["Japan", "JP", "Tokyo", "Osaka", "日本"])
  , ("SG", ["Singapore", "SG", "新加坡"])
  , ("US", ["United States", "US", "America", "USA", "美国"])
  , ("KR", ["Korea", "KR", "Seoul", "韩国"])
  , ("UK", ["United Kingdom", "UK", "London", "英国"])
  , ("DE", ["Germany", "DE", "Berlin", "德国"])
  , ("FR", ["France", "FR", "Paris", "法国"])
  , ("CA", ["Canada", "CA", "Montreal", "Toronto", "加拿大"])
  , ("AU", ["Australia", "AU", "Sydney", "Melbourne", "澳大利亚"])
  , ("NL", ["Netherlands", "NL", "Amsterdam", "荷兰"])
  , ("IN", ["India", "IN", "Mumbai", "New Delhi", "印度"])
  , ("RU", ["Russia", "RU", "Moscow", "俄罗斯"])
  , ("TR", ["Turkey", "TR", "Istanbul", "土耳其"]) ]

/-- Python regex word character (`\w`, Unicode mode): ASCII alphanumerics,
underscore, and — as a modelling approximation adequate for the CJK
keywords involved — every non-ASCII character. -/
def isWordChar (c : Char) : Bool :=
  c.isAlphanum ∨ c = '_' ∨ c.val ≥ 128

/-- Case-insensitive prefix match of an ASCII keyword (`(?i)` flag;
`Char.toLower` agrees with Python lowercasing on ASCII). -/
def matchAtCI : List Char → List Char → Bool
  | [], _ => true
  | _ :: _, [] => false
  | k :: ks, c :: cs => k.toLower = c.toLower ∧ matchAtCI ks cs

/-- Boundary side condition of `re.search(r'(?i)\b kw \b', s)` at one
position: every table keyword begins and ends with a word character, so
the `\b` on each side demands a non-word (or absent) neighbour. `prev`
is the character preceding the candidate position. -/
def wbOk (prev : Option Char) : Bool :=
  match prev with
  | none => true
  | some c => ¬ isWordChar c

/-- Character following the matched keyword must be non-word or absent. -/
def afterOk (kw s : List Char) : Bool :=
  match s.drop kw.length with
  | [] => true
  | c :: _ => ¬ isWordChar c

/-- `re.search(r'(?i)\b' + re.escape(kw) + r'\b', s)`: some position
carries a case-insensitive occurrence of `kw` with word boundaries. -/
def wbSearch (kw : List Char) (prev : Option Char) : List Char → Bool
  | [] => false
  | c :: cs =>
    (wbOk prev ∧ matchAtCI kw (c :: cs) ∧ afterOk kw (c :: cs))
      ∨ wbSearch kw (some c) cs

/-- One keyword test (main.py lines 64-77): ASCII keywords use the
word-boundary regex, others raw substring containment. -/
def kwMatches (kw : String) (name : String) : Bool :=
  if kw.data.all (fun c => c.val < 128) then
    wbSearch kw.data none name.data
  else
    subList kw.data name.data

/-- The table walk of `get_name` (lines 62-78): first keyword hit in
table order, then keyword-list order, wins. -/
def matchRegion (name : String) : Option String :=
  match mappings.find? (fun p => p.2.any (fun kw => kwMatches kw name)) with
  | some p => some p.1
  | none => none

/-- Prefix extraction of `get_name` (lines 51-56): a leading `[`
together with some later `]` yields a prefix up to and including the
first `]`; the remainder is stripped. -/
def stripBracketPfx (original : String) : String × String :=
  if sStarts original "[" ∧ shas original ']' then
    match chSplitFirst ']' original.data with
    | some (a, b) => (⟨a ++ [']']⟩, ⟨trimC b⟩)
    | none => ("", original)
  else
    ("", original)

/-- Renamer counters: `self.counters = defaultdict(int)`. The source
also initializes `self.fallback_counters`, which is never read or
written afterwards (dead state), so it is not carried here. -/
structure RenState where
  counters : String → Nat

def initRen : RenState := ⟨fun _ => 0⟩

def bump (st : RenState) (key : String) : RenState :=
  ⟨fun k => if k = key then st.counters key + 1 else st.counters k⟩

/-- `LocationRenamer.get_name` (lines 49-96). Both the region branch and
the fallback branch format the counter with `f"...{c:02d}"`. -/
def getName (st : RenState) (original : String) : String × RenState :=
  let pr := stripBracketPfx original
  let prefix_ := pr.1
  let rest := pr.2
  match matchRegion rest with
  | some code =>
    let key := prefix_ ++ "_" ++ code
    let st' := bump st key
    let nodeName := code ++ " " ++ pad2 (st'.counters key)
    (if prefix_ ≠ "" then prefix_ ++ " " ++ nodeName else nodeName, st')
  | none =>
    let key := prefix_ ++ "_other"
    let st' := bump st key
    let nodeName := "other " ++ pad2 (st'.counters key)
    (if prefix_ ≠ "" then prefix_ ++ " " ++ nodeName else nodeName, st')

/-! ## Association lists (Python `dict` with insertion order) -/

/-- Python `d[k] = v`: overwrite in place when the key exists (the key
keeps its position), otherwise append. -/
def ainsert {α : Type} (m : List (String × α)) (k : String) (v : α) :
    List (String × α) :=
  match m with
  | [] => [(k, v)]
  | (k', v') :: rest =>
    if k' = k then (k, v) :: rest else (k', v') :: ainsert rest k v

/-- Python `d.get(k)` / `d[k]`. -/
def alookup {α : Type} (m : List (String × α)) (k : String) : Option α :=
  match m.find? (fun p => p.1 = k) with
  | some p => some p.2
  | none => none

/-- Python `set.add`. -/
def addSeen (s : List String) (x : String) : List String :=
  if x ∈ s then s else s ++ [x]

/-! ## Group rule mini-language (`filter_node_list`, lines 107-133) -/

/-- Result of `re.search(r"\{all\s*(.*?)\}", rule)`: the text before the
match, the whitespace eaten by `\s*`, the lazily captured content up to
the first `}`, and the text after. `group(0)` is
`"{all" ++ ws ++ content ++ "}"`. Newlines inside the clause are not
modelled (rule templates are single-line configuration values). -/
structure ClauseMatch where
  before : List Char
  ws : List Char
  content : List Char
  after : List Char
deriving DecidableEq, Repr

def findClause : List Char → Option ClauseMatch
  | [] => none
  | c :: rest =>
    if ('\x7b' :: "all".data).isPrefixOf (c :: rest) then
      let after4 := (c :: rest).drop 4
      let ws := after4.takeWhile isWs
      let body := after4.dropWhile isWs
      if containsChar body '}' then
        some ⟨[], ws, body.takeWhile (fun x => x ≠ '}'),
              (body.dropWhile (fun x => x ≠ '}')).drop 1⟩
      else none
    else
      match findClause rest with
      | none => none
      | some cm => some { cm with before := c :: cm.before }

/-- `match.group(0)` of the clause regex. -/
def clauseG0 (cm : ClauseMatch) : String :=
  ⟨'\x7b' :: "all".data ++ cm.ws ++ cm.content ++ ['\x7d']⟩

/-- Token scan of lines 116-121: `content.split()`, then every token
starting with `filter=` (resp. `exclude=`) resets the keyword lists via
`token.replace("filter=", "").split(",")`; the two checks are separate
`if`s, and a later token overwrites an earlier one. -/
def parseFE (content : List Char) : List String × List String :=
  (wsSplit content).foldl
    (fun fe p =>
      let ps : String := ⟨p⟩
      let fe1 := if sStarts ps "filter=" then
          (ssplit ',' (sreplace ps "filter=" ""), fe.2) else fe
      if sStarts ps "exclude=" then
        (fe1.1, ssplit ',' (sreplace ps "exclude=" "")) else fe1)
    ([], [])

/-- Membership test of lines 124-132: drop the node when any nonempty
exclude keyword is a substring; when the filter list is nonempty, keep
only nodes containing some nonempty filter keyword. -/
def keepNode (filters excludes : List String) (node : String) : Bool :=
  (¬ excludes.any (fun ex => ex ≠ "" ∧ strContains node ex))
    ∧ (filters.isEmpty ∨ filters.any (fun f => f ≠ "" ∧ strContains node f))

/-- `filter_node_list` (lines 107-133). -/
def filter_node_list (rule : String) (nodeNames : List String) : List String :=
  match findClause rule.data with
  | none => nodeNames
  | some cm =>
    let fe := parseFE cm.content
    nodeNames.filter (fun n => keepNode fe.1 fe.2 n)

/-- One group line of the surge output (lines 501-509): expand the
dynamic clause (if any) against the sorted node names, fall back to
`DIRECT` when empty, and substitute for every occurrence of `group(0)`
(Python `str.replace` replaces all occurrences). -/
def surgeGroupLine (gName gRule : String) (sortedNames : List String) : String :=
  match findClause gRule.data with
  | some cm =>
    let filtered := filter_node_list gRule sortedNames
    let nodesStr := if filtered.isEmpty then "DIRECT"
                    else sjoin ", " filtered
    gName ++ " = " ++ sreplace gRule (clauseG0 cm) nodesStr
  | none => gName ++ " = " ++ gRule

/-! ## Surge pipeline (`process_surge_config`, lines 266-511)

The model starts after fetch/base64/YAML-dialect detection: a source is
its `namePrefix` plus the list of text lines handed to the text-dialect
parser (lines 368-405). -/

structure SurgeState where
  proxies : List (String × String)
  seen : List String
  ren : RenState

def initSurge : SurgeState := ⟨[], [], initRen⟩

/-- One candidate line (lines 380-405): split on the first `=`, need at
least three comma-fields, fingerprint dedup first, then the exclusion
check on the raw name, then the Renamer, then insertion keyed by the
final name with value `f"{final_name} = {detail}"`. -/
def processSurgeLine (excludeKeys : List String) (srcPfx : String)
    (st : SurgeState) (line : String) : SurgeState :=
  if shas line '=' ∧ ¬(sStarts line "#" ∨ sStarts line "//" ∨ sStarts line ";") then
    match ssplitFirst '=' line with
    | none => st
    | some (n0, d0) =>
      let name := sstrip n0
      let detail := sstrip d0
      let dParts := (ssplit ',' detail).map sstrip
      if dParts.length < 3 then st
      else
        let pType := slower (dParts.getD 0 "")
        let pServer := dParts.getD 1 ""
        let pPort := dParts.getD 2 ""
        let fp := pType ++ "|" ++ pServer ++ "|" ++ pPort
        if fp ∈ st.seen then st
        else
          let seen' := addSeen st.seen fp
          if excludeKeys.any (fun k => strContains name k) then
            { st with seen := seen' }
          else
            let r := getName st.ren name
            let finalName := if srcPfx ≠ "" then sstrip (srcPfx ++ " " ++ r.1) else r.1
            { proxies := ainsert st.proxies finalName (finalName ++ " = " ++ detail),
              seen := seen', ren := r.2 }
  else st

/-- The `[Proxy]`-section scan (lines 369-378) around the per-line step. -/
def surgeSourceLines (excludeKeys : List String) (srcPfx : String)
    (st : SurgeState) (text : List String) : SurgeState :=
  let hasSection := text.any (fun l => slower (sstrip l) = "[proxy]")
  (text.foldl
    (fun (acc : SurgeState × Bool) line0 =>
      let line := sstrip line0
      if line = "" then acc
      else if (slower line) = "[proxy]" then (acc.1, true)
      else if sStarts line "[" ∧ (slower line) ≠ "[proxy]" then (acc.1, false)
      else if hasSection ∧ ¬acc.2 then acc
      else (processSurgeLine excludeKeys srcPfx acc.1 line, acc.2))
    (st, false)).1

/-- The source loop in declaration order, from a fresh state. -/
def runSurgeSources (excludeKeys : List String)
    (sources : List (String × List String)) : SurgeState :=
  sources.foldl (fun st s => surgeSourceLines excludeKeys s.1 st s.2) initSurge

/-- Manual merge (lines 410-421): names kept verbatim (no Renamer, no
fingerprint check); insertion keyed by the stripped name overwrites an
existing entry with the same name. -/
def surgeManual (m : List (String × String)) (manualLines : List String) :
    List (String × String) :=
  manualLines.foldl
    (fun m line0 =>
      let line := sstrip line0
      if line = "" ∨ sStarts line "#" ∨ sStarts line ";" ∨ sStarts line "//"
          ∨ sStarts line "[" then m
      else if shas line '=' then
        match ssplitFirst '=' line with
        | none => m
        | some (n, d) => ainsert m (sstrip n) (sstrip n ++ " = " ++ sstrip d)
      else m)
    m

/-- `any(region in node_name for region in ['JP ', 'KR ', 'TW '])`. -/
def regionMatch3 (name : String) : Bool :=
  ["JP ", "KR ", "TW "].any (fun r => strContains name r)

/-- Chain synthesis, surge side (lines 426-446): when a node named
`EXIT` exists, every other node whose name contains `JP `/`KR `/`TW `
yields `"<name> Chain" = <EXIT detail>, underlying-proxy=<name>`; the
synthesized dict is merged with `dict.update` (overwriting existing
keys). -/
def surgeChain (m : List (String × String)) : List (String × String) :=
  match alookup m "EXIT" with
  | none => m
  | some usLine =>
    if shas usLine '=' then
      match ssplitFirst '=' usLine with
      | none => m
      | some (_, d) =>
        let detail := sstrip d
        let chains := (m.filter (fun p => p.1 ≠ "EXIT" ∧ regionMatch3 p.1)).map
          (fun p => (p.1 ++ " Chain",
                     p.1 ++ " Chain = " ++ detail ++ ", underlying-proxy=" ++ p.1))
        chains.foldl (fun acc c => ainsert acc c.1 c.2) m
    else m

/-- Bracket prefix extraction of the assembly step (lines 456-459). -/
def pfxOfName (name : String) : String :=
  if sStarts name "[" ∧ shas name ']' then
    match chSplitFirst ']' name.data with
    | some (a, _) => ⟨a ++ [']']⟩
    | none => ""
  else ""

/-- One step of the grouping loop of lines 452-460
(`prefix_groups[prefix].append(...)` on a `defaultdict(list)`): append
to the existing group, or open a new group at the end. -/
def gstep (gs : List (String × List (String × String))) (p : String × String) :
    List (String × List (String × String)) :=
  let pre := pfxOfName p.1
  match alookup gs pre with
  | some l => ainsert gs pre (l ++ [p])
  | none => gs ++ [(pre, [p])]

/-- Grouping loop of lines 452-460 (`defaultdict(list)` keyed by the
bracket prefix, groups appearing in first-encounter order). -/
def groupByPfx (m : List (String × String)) :
    List (String × List (String × String)) :=
  m.foldl gstep []

/-- Structural invariant of the grouping map: every member sits in the
group of its own bracket prefix, and group keys are distinct. -/
def GInv (gs : List (String × List (String × String))) : Prop :=
  (∀ g ∈ gs, ∀ q ∈ g.2, pfxOfName q.1 = g.1) ∧ (gs.map Prod.fst).Nodup

/-- Within-group comparison of line 464 (`sort(key=lambda x: x[0])`). -/
def nmLe (a b : String × String) : Prop := a.1 ≤ b.1

instance : DecidableRel nmLe := fun a b => inferInstanceAs (Decidable (a.1 ≤ b.1))

instance : IsTotal (String × String) nmLe := ⟨fun a b => le_total a.1 b.1⟩

instance : IsTrans (String × String) nmLe := ⟨fun _ _ _ h h' => le_trans h h'⟩

/-- Prefix comparison of line 467 (`sorted(keys, key=lambda x: (x == "", x))`):
nonempty prefixes in lexicographic order first, the empty prefix last. -/
def preLe (a b : String) : Prop :=
  (a ≠ "" ∧ b = "") ∨ ((a = "" ↔ b = "") ∧ a ≤ b)

instance : DecidableRel preLe := fun a b =>
  inferInstanceAs (Decidable ((a ≠ "" ∧ b = "") ∨ ((a = "" ↔ b = "") ∧ a ≤ b)))

instance : IsTotal String preLe := by
  constructor
  intro a b
  by_cases ha : a = "" <;> by_cases hb : b = ""
  · exact Or.inl (Or.inr ⟨by simp [ha, hb], by simp [ha, hb]⟩)
  · exact Or.inr (Or.inl ⟨hb, ha⟩)
  · exact Or.inl (Or.inl ⟨ha, hb⟩)
  · rcases le_total a b with h | h
    · exact Or.inl (Or.inr ⟨by simp [ha, hb], h⟩)
    · exact Or.inr (Or.inr ⟨by simp [ha, hb], h⟩)

instance : IsTrans String preLe := by
  constructor
  intro a b c hab hbc
  rcases hab with ⟨ha, hb⟩ | ⟨hab, hle⟩
  · rcases hbc with ⟨hb', hc⟩ | ⟨hbc, hle'⟩
    · exact absurd hb hb'
    · exact Or.inl ⟨ha, hbc.mp hb⟩
  · rcases hbc with ⟨hb', hc⟩ | ⟨hbc, hle'⟩
    · exact Or.inl ⟨fun h => hb' (hab.mp h), hc⟩
    · exact Or.inr ⟨hab.trans hbc, hle.trans hle'⟩

/-- Node assembly (lines 449-475): group by prefix, sort each group by
name, iterate prefixes sorted with the empty prefix last. -/
def surgeAssembleList (m : List (String × String)) : List (String × String) :=
  let gs := groupByPfx m
  let sortedPfxs := List.insertionSort preLe (gs.map Prod.fst)
  (sortedPfxs.map
    (fun pre =>
      match alookup gs pre with
      | some l => List.insertionSort nmLe l
      | none => [])).flatten

/-- The rendered `[Proxy]` section (lines 470-475). -/
def surgeProxySection (m : List (String × String)) : List String :=
  "[Proxy]" :: (surgeAssembleList m).map Prod.snd

/-! ## Clash node records and the protocol codec

A parsed node record is modelled as its identifying fields plus an
ordered mapping of the remaining typed parameters (YAML scalars:
strings, booleans, integers, string lists). A missing `name`/`type`/
`server`/`port` is the empty string (`dict.get(k, '')`, and Python
truthiness on these values is string nonemptiness). -/

inductive PVal where
  | s (v : String)
  | b (v : Bool)
  | i (v : Int)
  | ls (v : List String)
deriving DecidableEq, Repr

structure Proxy where
  name : String
  ptype : String
  server : String
  port : String
  params : List (String × PVal)
deriving DecidableEq, Repr

/-- Python `f"{value}"` on the scalar shapes involved. -/
def pvStr : PVal → String
  | .s v => v
  | .b v => if v then "True" else "False"
  | .i v => toString v
  | .ls v => sjoin ", " v

/-- Python truthiness of a parameter value. -/
def pvTruthy : PVal → Bool
  | .s v => v ≠ ""
  | .b v => v
  | .i v => v ≠ 0
  | .ls v => ¬v.isEmpty

/-- `proxy.get(k, '')` rendered into an f-string. -/
def pgetStr (p : Proxy) (k : String) : String :=
  match alookup p.params k with
  | some v => pvStr v
  | none => ""

/-- `proxy.get(k, d)` rendered (default used only when the key is absent). -/
def pgetStrD (p : Proxy) (k d : String) : String :=
  match alookup p.params k with
  | some v => pvStr v
  | none => d

/-- Truthiness of `proxy.get(k)` (absent key is `None`, falsy). -/
def pTruthy (p : Proxy) (k : String) : Bool :=
  match alookup p.params k with
  | some v => pvTruthy v
  | none => false

/-- Surge serialization of one clash-parsed record (lines 335-364),
given the already-computed final name; `p.ptype` is the lowercased
`proxy.get('type','')`. Types without a branch — notably `hysteria2` —
leave `surge_line` empty, and an empty line is not added to the node
set (line 363). -/
def surgeLineOf (finalName : String) (p : Proxy) : String :=
  if p.ptype = "ss" then
    finalName ++ " = ss, " ++ p.server ++ ", " ++ p.port
      ++ ", encrypt-method=" ++ pgetStr p "cipher"
      ++ ", password=" ++ pgetStr p "password"
  else if p.ptype = "vmess" then
    finalName ++ " = vmess, " ++ p.server ++ ", " ++ p.port
      ++ ", username=" ++ pgetStr p "uuid"
      ++ ", tls=" ++ (if pTruthy p "tls" then "true" else "false")
  else if p.ptype = "trojan" then
    finalName ++ " = trojan, " ++ p.server ++ ", " ++ p.port
      ++ ", password=" ++ pgetStr p "password"
      ++ ", skip-cert-verify="
      ++ (if pTruthy p "skip-cert-verify" then "true" else "false")
      ++ (if pgetStr p "sni" ≠ "" then ", sni=" ++ pgetStr p "sni" else "")
  else if p.ptype = "http" then
    finalName ++ " = http, " ++ p.server ++ ", " ++ p.port
      ++ ", username=" ++ pgetStr p "username"
      ++ ", password=" ++ pgetStr p "password"
  else if p.ptype = "socks5" then
    finalName ++ " = socks5, " ++ p.server ++ ", " ++ p.port
      ++ ", username=" ++ pgetStr p "username"
      ++ ", password=" ++ pgetStr p "password"
  else if p.ptype = "snell" then
    finalName ++ " = snell, " ++ p.server ++ ", " ++ p.port
      ++ ", psk=" ++ pgetStr p "psk"
      ++ ", version=" ++ pgetStrD p "version" "2"
  else ""

/-- `key=value` harvesting of lines 651-655 / 741-745: items containing
`=` are split on the first `=`, both sides stripped, later keys
overwrite earlier ones. -/
def kvStep (kv : List (String × String)) (item : String) : List (String × String) :=
  if shas item '=' then
    match ssplitFirst '=' item with
    | some (k, v) => ainsert kv (sstrip k) (sstrip v)
    | none => kv
  else kv

def kvBuild (items : List String) : List (String × String) :=
  items.foldl kvStep []

def kvGet (kv : List (String × String)) (k d : String) : String :=
  match alookup kv k with
  | some v => v
  | none => d

def kvHas (kv : List (String × String)) (k : String) : Bool :=
  (alookup kv k).isSome

/-- Python `int(v)` on the strings at hand: optional surrounding
whitespace, optional sign, at least one digit (digit-group underscores
are not modelled). `None` on failure — the caller drops the field. -/
def pyInt (v : String) : Option Int :=
  let t := trimC v.data
  let core := match t with
    | '+' :: rest => some (1, rest)
    | '-' :: rest => some (-1, rest)
    | rest => some (1, rest)
  match core with
  | some (sign, ds) =>
    if ds ≠ [] ∧ ds.all Char.isDigit then
      some (sign * (ds.foldl (fun acc c => acc * 10 + (c.toNat - 48)) 0 : Nat))
    else none
  | none => none

/-- Common line splitting of the text-dialect parsers: strip, comment
check, split on the first `=`, name/detail strip, comma fields stripped,
at least three fields. Returns the name and the fields. -/
def parseStage1 (line0 : String) : Option (String × List String) :=
  let line := sstrip line0
  if shas line '=' ∧ ¬(sStarts line "#" ∨ sStarts line "//" ∨ sStarts line ";") then
    match ssplitFirst '=' line with
    | none => none
    | some (n0, d0) =>
      let name := sstrip n0
      let detail := sstrip d0
      let dParts := (ssplit ',' detail).map sstrip
      if dParts.length < 3 then none else some (name, dParts)
  else none

/-- The typed record construction of the clash text-dialect parser
(lines 625-712): build a clash record from one surge-format line. -/
def parseClashTextLine (line : String) : Option Proxy :=
  match parseStage1 line with
  | none => none
  | some (name, dParts) =>
    let pType := slower (dParts.getD 0 "")
    let pServer := dParts.getD 1 ""
    let pPort := dParts.getD 2 ""
    let kv := kvBuild (dParts.drop 3)
    let params : List (String × PVal) :=
      if pType = "ss" then
        [("cipher", .s (kvGet kv "encrypt-method" "")),
         ("password", .s (kvGet kv "password" ""))]
      else if pType = "vmess" then
        [("uuid", .s (kvGet kv "username" "")),
         ("cipher", .s "auto"),
         ("tls", .b (kvGet kv "tls" "false" = "true"))]
      else if pType = "trojan" then
        [("password", .s (kvGet kv "password" ""))]
          ++ (if kvHas kv "sni" then [("sni", .s (kvGet kv "sni" ""))] else [])
          ++ (if kvGet kv "skip-cert-verify" "" = "true" then
                [("skip-cert-verify", .b true)] else [])
      else if pType = "http" ∨ pType = "socks5" then
        [("username", .s (kvGet kv "username" "")),
         ("password", .s (kvGet kv "password" ""))]
          ++ (if kvHas kv "underlying-proxy" then
                [("dialer-proxy", .s (kvGet kv "underlying-proxy" ""))] else [])
      else if pType = "snell" then
        [("psk", .s (kvGet kv "psk" "")),
         ("version", .s (kvGet kv "version" "2"))]
      else if pType = "hysteria2" then
        [("password", .s (kvGet kv "password" ""))]
          ++ (if kvHas kv "sni" then [("sni", .s (kvGet kv "sni" ""))] else [])
          ++ (if kvGet kv "skip-cert-verify" "" = "true" then
                [("skip-cert-verify", .b true)] else [])
          ++ (if kvHas kv "alpn" then
                [("alpn", .ls (if shas (kvGet kv "alpn" "") ',' then
                    (ssplit ',' (kvGet kv "alpn" "")).map sstrip
                  else [kvGet kv "alpn" ""]))] else [])
          ++ (if kvHas kv "obfs" then [("obfs", .s (kvGet kv "obfs" ""))] else [])
          ++ (if kvHas kv "obfs-password" then
                [("obfs-password", .s (kvGet kv "obfs-password" ""))] else [])
          ++ (match (if kvHas kv "download-bandwidth" then
                  pyInt (kvGet kv "download-bandwidth" "") else none) with
              | some n => [("down", .i n)]
              | none => [])
          ++ (match (if kvHas kv "upload-bandwidth" then
                  pyInt (kvGet kv "upload-bandwidth" "") else none) with
              | some n => [("up", .i n)]
              | none => [])
          ++ (if kvGet kv "udp-relay" "" = "true" then [("udp", .b true)] else [])
          ++ (if kvGet kv "tfo" "" = "true" then [("fast-open", .b true)] else [])
      else []
    some ⟨name, pType, pServer, pPort, params⟩

/-! ## Clash pipeline (`process_clash_config`, lines 517-870) -/

structure ClashState where
  allProxies : List Proxy
  seenFps : List String
  seenNames : List String
  ren : RenState

def initClash : ClashState := ⟨[], [], [], initRen⟩

/-- The collision loop of lines 572-576: `name`, then `name_2`,
`name_3`, … . The fuel `seen.length + 1` covers the pigeonhole bound
(among `|seen| + 1` distinct candidates one is free), mirroring the
terminating Python `while`. -/
def freeLoop (seen : List String) (pName : String) : Nat → Nat → String
  | 0, idx => pName ++ "_" ++ toString idx
  | fuel + 1, idx =>
    let cand := pName ++ "_" ++ toString idx
    if cand ∈ seen then freeLoop seen pName fuel (idx + 1) else cand

def resolveName (seen : List String) (pName : String) : String :=
  if pName ∈ seen then freeLoop seen pName (seen.length + 1) 2 else pName

/-- `add_proxy` (lines 542-580): drop empty names, exclusion check on
the raw name, rename (unless manual) — the Renamer counter advances
even when the record is later dropped as a duplicate fingerprint —
prefix prepend, fingerprint dedup (only when type, server and port are
all nonempty), then the literal name-collision suffix loop, and append. -/
def addProxy (excludeKeys : List String) (st : ClashState) (p : Proxy)
    (pPfx : String) (skipRename : Bool) : ClashState :=
  if p.name = "" then st
  else if excludeKeys.any (fun k => strContains p.name k) then st
  else
    let rn := if skipRename then (p.name, st.ren) else getName st.ren p.name
    let pName := if pPfx ≠ "" then sstrip (pPfx ++ " " ++ rn.1) else rn.1
    let fpApplies := p.ptype ≠ "" ∧ p.server ≠ "" ∧ p.port ≠ ""
    let fp := p.ptype ++ "|" ++ p.server ++ "|" ++ p.port
    if fpApplies ∧ fp ∈ st.seenFps then { st with ren := rn.2 }
    else
      let finalName := resolveName st.seenNames pName
      { allProxies := st.allProxies ++ [{ p with name := finalName }],
        seenFps := if fpApplies then addSeen st.seenFps fp else st.seenFps,
        seenNames := addSeen st.seenNames finalName,
        ren := rn.2 }

/-- Structured-dialect source entries (the YAML path, lines 603-610):
each record goes straight into `add_proxy`. -/
def clashSourceRecords (excludeKeys : List String) (srcPfx : String)
    (st : ClashState) (records : List Proxy) : ClashState :=
  records.foldl (fun st p => addProxy excludeKeys st p srcPfx false) st

/-- Text-dialect source lines on the clash side (lines 613-712),
including the `[Proxy]`-section scan. -/
def clashSourceLines (excludeKeys : List String) (srcPfx : String)
    (st : ClashState) (text : List String) : ClashState :=
  let hasSection := text.any (fun l => slower (sstrip l) = "[proxy]")
  (text.foldl
    (fun (acc : ClashState × Bool) line0 =>
      let line := sstrip line0
      if line = "" then acc
      else if (slower line) = "[proxy]" then (acc.1, true)
      else if sStarts line "[" ∧ (slower line) ≠ "[proxy]" then (acc.1, false)
      else if hasSection ∧ ¬acc.2 then acc
      else
        match parseClashTextLine line with
        | some p => (addProxy excludeKeys acc.1 p srcPfx false, acc.2)
        | none => acc)
    (st, false)).1

/-- Manual-file record construction on the clash side (lines 720-758):
the manual parser fills typed params only for `ss`, `http` and
`socks5`; the record is added with `skip_rename=True` and no prefix. -/
def parseClashManualLine (line0 : String) : Option Proxy :=
  let line := sstrip line0
  if line = "" ∨ sStarts line "#" ∨ sStarts line ";" ∨ sStarts line "//"
      ∨ sStarts line "[" then none
  else if shas line '=' then
    match ssplitFirst '=' line with
    | none => none
    | some (n0, d0) =>
      let name := sstrip n0
      let detail := sstrip d0
      let dParts := (ssplit ',' detail).map sstrip
      if dParts.length < 3 then none
      else
        let pType := slower (dParts.getD 0 "")
        let kv := kvBuild (dParts.drop 3)
        let params : List (String × PVal) :=
          if pType = "ss" then
            [("cipher", .s (kvGet kv "encrypt-method" "")),
             ("password", .s (kvGet kv "password" ""))]
          else if pType = "http" ∨ pType = "socks5" then
            [("username", .s (kvGet kv "username" "")),
             ("password", .s (kvGet kv "password" ""))]
              ++ (if kvHas kv "underlying-proxy" then
                    [("dialer-proxy", .s (kvGet kv "underlying-proxy" ""))] else [])
          else []
        some ⟨name, pType, dParts.getD 1 "", dParts.getD 2 "", params⟩
  else none

def clashManual (excludeKeys : List String) (st : ClashState)
    (manualLines : List String) : ClashState :=
  manualLines.foldl
    (fun st l =>
      match parseClashManualLine l with
      | some p => addProxy excludeKeys st p "" true
      | none => st)
    st

/-- Chain synthesis, clash side (lines 763-790): deep-copy the first
record named `EXIT`, rename the copy to `"<name> Chain"`, point its
`dialer-proxy` at the regional node, append all copies, and record the
names in `seen_names`. -/
def clashChain (st : ClashState) : ClashState :=
  match st.allProxies.find? (fun p => p.name = "EXIT") with
  | none => st
  | some exitP =>
    let chains := (st.allProxies.filter
        (fun p => p.name ≠ "EXIT" ∧ regionMatch3 p.name)).map
      (fun p => { exitP with
                    name := p.name ++ " Chain",
                    params := ainsert exitP.params "dialer-proxy" (.s p.name) })
    { st with
        allProxies := st.allProxies ++ chains,
        seenNames := chains.foldl (fun s c => addSeen s c.name) st.seenNames }

/-- The emitted `proxies:` list of the structured output (lines
867-870): the accumulated records in insertion order, unsorted. -/
def clashProxiesOut (st : ClashState) : List Proxy := st.allProxies

/-- The clash source loop in declaration order (lines 582-715),
structured-dialect path, from a fresh state. -/
def runClashSources (excludeKeys : List String)
    (sources : List (String × List Proxy)) : ClashState :=
  sources.foldl (fun st s => clashSourceRecords excludeKeys s.1 st s.2) initClash


/-! ## Fingerprint and required-field views -/

/-- The dedup fingerprint `f"{type}|{server}|{port}"`. -/
def fpOf (ty sv pt : String) : String := ty ++ "|" ++ sv ++ "|" ++ pt

def proxyFp (p : Proxy) : String := fpOf p.ptype p.server p.port

/-- Records whose type, server and port are all present: exactly the
ones `add_proxy` subjects to the fingerprint check. -/
def validFp (p : Proxy) : Prop :=
  p.ptype ≠ "" ∧ p.server ≠ "" ∧ p.port ≠ ""

/-- The dedup invariant of the aggregation stage: every retained
checkable record's fingerprint has been recorded, and no two retained
checkable records share a fingerprint. -/
def FpInv (st : ClashState) : Prop :=
  (∀ p ∈ st.allProxies, validFp p → proxyFp p ∈ st.seenFps)
    ∧ st.allProxies.Pairwise (fun p q => validFp p → validFp q → proxyFp p ≠ proxyFp q)

/-- Fingerprint of a stored surge line, recomputed the way the parser
derives it (split at the first `=`, first three comma-fields). -/
def fpOfLine (line : String) : Option String :=
  match parseStage1 line with
  | none => none
  | some (_, dParts) =>
    some (fpOf (slower (dParts.getD 0 "")) (dParts.getD 1 "") (dParts.getD 2 ""))

/-- The claim's `(type, server, port, required-fields)` view of a
record, with booleans canonicalized to `true`/`false` and the snell
version defaulting to `"2"`; `none` for types outside the closed enum. -/
def reqTuple (p : Proxy) : Option (String × String × String × List String) :=
  if p.ptype = "ss" then
    some (p.ptype, p.server, p.port, [pgetStr p "cipher", pgetStr p "password"])
  else if p.ptype = "vmess" then
    some (p.ptype, p.server, p.port,
          [pgetStr p "uuid", if pTruthy p "tls" then "true" else "false"])
  else if p.ptype = "trojan" then
    some (p.ptype, p.server, p.port, [pgetStr p "password"])
  else if p.ptype = "http" ∨ p.ptype = "socks5" then
    some (p.ptype, p.server, p.port, [pgetStr p "username", pgetStr p "password"])
  else if p.ptype = "snell" then
    some (p.ptype, p.server, p.port, [pgetStr p "psk", pgetStrD p "version" "2"])
  else if p.ptype = "hysteria2" then
    some (p.ptype, p.server, p.port, [pgetStr p "password"])
  else none

/-! ## The `/sync` endpoint, surge branch (lines 894-905) -/

/-- The source calls `load_ini(target, 'config.ini')`, but no function
named `load_ini` is defined anywhere in the module (the config readers
are `load_main_config` and `get_merged_config`), so the call raises
`NameError` the moment the `try` block runs. -/
def load_ini_call : Except String Unit :=
  .error "NameError: name load_ini is not defined"

/-- The surge response body (lines 894-905): on any exception the bare
`except` returns the rendered text unchanged; the managed-config header
and the timestamp comment are prepended only on the unreachable success
path. -/
def syncSurgeBody (timestamp content : String) : String :=
  match load_ini_call with
  | .error _ => content
  | .ok _ =>
    let baseUrl := "http://127.0.0.1:8000/sync"
    let sep := if strContains baseUrl "?" then "&" else "?"
    "#!MANAGED-CONFIG " ++ baseUrl ++ sep ++ "target=surge interval=2880 strict=true\n"
      ++ "# Last Updated: " ++ timestamp ++ " (UTC+8)\n" ++ content

/-! ## Claim-side (specification) definitions

These restate wording from the specification, for comparison with the
source-derived definitions above. -/

/-- Spec §4.7 ordering between two emitted nodes: equal bracket prefixes
must be name-sorted; different prefixes must follow the prefix order
with the empty prefix last (which also forces prefix groups to be
contiguous, since `preLe` is antisymmetric). -/
def claimLe (a b : String × String) : Prop :=
  (pfxOfName a.1 = pfxOfName b.1 ∧ a.1 ≤ b.1)
    ∨ (pfxOfName a.1 ≠ pfxOfName b.1 ∧ preLe (pfxOfName a.1) (pfxOfName b.1))

instance : DecidableRel claimLe := fun a b =>
  inferInstanceAs (Decidable (_ ∨ _))

/-- The same ordering on bare name lists (for the structured output,
which carries records rather than lines). -/
def claimLeName (a b : String) : Prop := claimLe (a, "") (b, "")

instance : DecidableRel claimLeName := fun a b =>
  inferInstanceAs (Decidable (claimLe (a, "") (b, "")))

/-- Spec §4.4 bucket of a raw name: the counter key `get_name` uses,
the extracted bracket prefix joined with the matched region code or
`other`. -/
def bucketKey (name : String) : String :=
  let pr := stripBracketPfx name
  match matchRegion pr.2 with
  | some code => pr.1 ++ "_" ++ code
  | none => pr.1 ++ "_other"

/-- The final name `get_name` produces for a raw name, given the value
the bucket counter reaches on this call. -/
def renderName (name : String) (c : Nat) : String :=
  let pr := stripBracketPfx name
  let nodeName := match matchRegion pr.2 with
    | some code => code ++ " " ++ pad2 c
    | none => "other " ++ pad2 c
  if pr.1 ≠ "" then pr.1 ++ " " ++ nodeName else nodeName

/-- Feed a sequence of raw names through one renamer, collecting the
outputs (the aggregation loop calls `get_name` once per kept record). -/
def renRun (st : RenState) : List String → List String × RenState
  | [] => ([], st)
  | n :: rest =>
    let r := getName st n
    let t := renRun r.2 rest
    (r.1 :: t.1, t.2)

/-- How often the bucket of `names[i]` occurs in `names.take (i+1)`:
the counter value assigned to the `i`-th call. -/
def occCount (names : List String) (i : Nat) : Nat :=
  ((names.take (i + 1)).filter
    (fun n => bucketKey n = bucketKey (names.getD i ""))).length

/-! Cleanliness side conditions for the text-dialect round trip: a
rendered field survives `strip()` and the comma split unchanged. -/

def noWsHeadB (l : List Char) : Bool :=
  match l with
  | [] => true
  | c :: _ => ¬ isWs c

def noWsLastB (l : List Char) : Bool :=
  match l.getLast? with
  | none => true
  | some c => ¬ isWs c

/-- A parameter value that the surge line format transports verbatim:
no comma, no newline, no leading/trailing whitespace. -/
def cleanVal (v : String) : Prop :=
  containsChar v.data ',' = false ∧ containsChar v.data '\n' = false
    ∧ noWsHeadB v.data = true ∧ noWsLastB v.data = true

instance (v : String) : Decidable (cleanVal v) :=
  inferInstanceAs (Decidable (_ ∧ _ ∧ _ ∧ _))

/-- First character of a name that cannot be mistaken for a comment
marker (`#`, `;`, `//`). -/
def headNotComment (l : List Char) : Bool :=
  match l with
  | [] => false
  | c :: _ => ¬(c = '#' ∨ c = ';' ∨ c = '/')

/-- First character of a name that the text parser's line scan will not
mistake for a section header: a stripped line starting with `[` is
consumed by the `[Proxy]` section logic (lines 618-624) and never
reaches the record parser, so a transportable display name must not
start with `[`. -/
def headNotSection (l : List Char) : Bool :=
  match l with
  | [] => false
  | c :: _ => c ≠ '['

/-- A display name the line format transports: nonempty, free of `=`
and newlines, strip-stable, not starting like a comment, and not
starting with the `[` that the parser loop treats as a section header.
(Note this excludes every bracket-prefixed display name such as
`[FP] HK 01`: the text dialect cannot round-trip those nodes at all.) -/
def cleanName (n : String) : Prop :=
  containsChar n.data '=' = false ∧ containsChar n.data '\n' = false
    ∧ noWsHeadB n.data = true ∧ noWsLastB n.data = true
    ∧ headNotComment n.data = true ∧ headNotSection n.data = true

instance (n : String) : Decidable (cleanName n) :=
  inferInstanceAs (Decidable (_ ∧ _ ∧ _ ∧ _ ∧ _ ∧ _))

/-- The conditions under which the clash text-dialect scan (lines
613-624) hands a line to the record parser instead of dropping it as
blank, as a section header, or as pre-`[Proxy]` content: the line is
strip-stable, nonempty, does not start with `[`, and contains `=`
(kept with the rest so a single lemma discharges the whole scan). -/
def loopVisible (line : String) : Prop :=
  sstrip line = line ∧ line ≠ "" ∧ sStarts line "[" = false
    ∧ shas line '=' = true

/-- The parameter strings the surge serializer writes into the line for
a record of one of its six supported types. -/
def emittedVals (p : Proxy) : List String :=
  if p.ptype = "ss" then [pgetStr p "cipher", pgetStr p "password"]
  else if p.ptype = "vmess" then [pgetStr p "uuid"]
  else if p.ptype = "trojan" then [pgetStr p "password", pgetStr p "sni"]
  else if p.ptype = "http" ∨ p.ptype = "socks5" then
    [pgetStr p "username", pgetStr p "password"]
  else if p.ptype = "snell" then [pgetStr p "psk", pgetStrD p "version" "2"]
  else []

/-- The six protocol types the surge serializer has a branch for. -/
def surgeTypes : List String := ["ss", "vmess", "trojan", "http", "socks5", "snell"]

/-- `", ".join`-style body builder at the character level: the shape of
every serialized surge line after its `<name> = ` head. -/
def joinComma : List (List Char) → List Char
  | [] => []
  | f :: rest => f ++ (rest.map (fun r => ',' :: ' ' :: r)).flatten

/-! ## General lemmas about the embedded primitives -/

theorem bump_self (st : RenState) (k : String) :
    (bump st k).counters k = st.counters k + 1 := by
  simp [bump]

theorem bump_ne (st : RenState) (k k' : String) (h : k' ≠ k) :
    (bump st k).counters k' = st.counters k' := by
  simp [bump, h]

theorem getName_snd (st : RenState) (n : String) :
    (getName st n).2 = bump st (bucketKey n) := by
  unfold getName bucketKey
  rcases hm : matchRegion (stripBracketPfx n).2 with _ | code <;> simp [hm]

theorem getName_fst (st : RenState) (n : String) :
    (getName st n).1 = renderName n (st.counters (bucketKey n) + 1) := by
  unfold getName renderName bucketKey
  rcases hm : matchRegion (stripBracketPfx n).2 with _ | code <;> simp [hm, bump]

theorem alookup_ainsert_self {α : Type} (m : List (String × α)) (k : String) (v : α) :
    alookup (ainsert m k v) k = some v := by
  induction m with
  | nil => simp [ainsert, alookup]
  | cons hd tl ih =>
    by_cases h : hd.1 = k
    · simp [ainsert, h, alookup]
    · simpa [ainsert, h, alookup, List.find?] using ih

theorem alookup_ainsert_ne {α : Type} (m : List (String × α)) (k k' : String) (v : α)
    (h : k' ≠ k) : alookup (ainsert m k v) k' = alookup m k' := by
  induction m with
  | nil => simp [ainsert, alookup, List.find?, Ne.symm h]
  | cons hd tl ih =>
    by_cases hh : hd.1 = k
    · subst hh
      simp [ainsert, alookup, List.find?, Ne.symm h]
    · by_cases hk' : hd.1 = k'
      · simp [ainsert, hh, alookup, List.find?, hk', h]
      · simpa [ainsert, hh, alookup, List.find?, hk'] using ih

theorem alookup_eq_none {α : Type} (m : List (String × α)) (k : String) :
    alookup m k = none ↔ k ∉ m.map Prod.fst := by
  induction m with
  | nil => simp [alookup]
  | cons hd tl ih =>
    by_cases h : hd.1 = k
    · simp [alookup, List.find?, h]
    · simpa [alookup, List.find?, h, Ne.symm h] using ih

theorem map_fst_ainsert_mem {α : Type} (m : List (String × α)) (k : String) (v : α)
    (h : k ∈ m.map Prod.fst) :
    (ainsert m k v).map Prod.fst = m.map Prod.fst := by
  induction m with
  | nil => simp at h
  | cons hd tl ih =>
    by_cases hh : hd.1 = k
    · simp [ainsert, hh]
    · have : k ∈ tl.map Prod.fst := by
        simpa [hh, Ne.symm hh] using h
      simp [ainsert, hh, ih this]

theorem map_fst_ainsert_not_mem {α : Type} (m : List (String × α)) (k : String) (v : α)
    (h : k ∉ m.map Prod.fst) :
    (ainsert m k v).map Prod.fst = m.map Prod.fst ++ [k] := by
  induction m with
  | nil => simp [ainsert]
  | cons hd tl ih =>
    have hh : hd.1 ≠ k := by
      intro he; exact h (by simp [he])
    have : k ∉ tl.map Prod.fst := fun hm => h (by simp [hm])
    simp [ainsert, hh, ih this]

theorem mem_map_fst_ainsert {α : Type} (m : List (String × α)) (k k' : String) (v : α)
    (h : k' ∈ (ainsert m k v).map Prod.fst) :
    k' ∈ m.map Prod.fst ∨ k' = k := by
  by_cases hm : k ∈ m.map Prod.fst
  · rw [map_fst_ainsert_mem m k v hm] at h
    exact Or.inl h
  · rw [map_fst_ainsert_not_mem m k v hm] at h
    rcases List.mem_append.mp h with h | h
    · exact Or.inl h
    · exact Or.inr (by simpa using h)

/-! ## C9 -/

/-- C9: in the surge branch of `/sync`, the `#!MANAGED-CONFIG` header
construction always raises (it calls `load_ini`, defined nowhere in the
program), the bare `except` swallows the exception, and the response
body is exactly the rendered configuration text — no managed-config
header, no timestamp comment. -/
theorem sync_surge_no_header (timestamp content : String) :
    syncSurgeBody timestamp content = content := rfl

/-! ## C6 -/

/-- C6 counterexample: the claim (and spec §4.4 step 5) says the
no-match fallback name is `"other <counter>"` with the counter NOT
zero-padded, i.e. `"other 1"` for the first unmatched name; the code
formats the fallback counter with `{:02d}` as well, producing
`"other 01"`. -/
theorem getName_fallback_not_unpadded :
    (getName initRen "!!!").1 = "other 01" ∧ (getName initRen "!!!").1 ≠ "other 1" := by
  constructor <;> decide

/-- C6 (amended): on a region match the Renamer returns
`"<regionCode> <counter zero-padded to 2 digits>"`, and on no match
`"other <counter>"` with the counter ALSO zero-padded to 2 digits; in
both cases the original bracket prefix, when present, is re-attached
with a single separating space. -/
theorem getName_shape (st : RenState) (name : String) :
    (∀ code, matchRegion (stripBracketPfx name).2 = some code →
      getName st name =
        (if (stripBracketPfx name).1 ≠ "" then
            (stripBracketPfx name).1 ++ " "
              ++ (code ++ " " ++ pad2 (st.counters ((stripBracketPfx name).1 ++ "_" ++ code) + 1))
          else code ++ " " ++ pad2 (st.counters ((stripBracketPfx name).1 ++ "_" ++ code) + 1),
         bump st ((stripBracketPfx name).1 ++ "_" ++ code)))
    ∧ (matchRegion (stripBracketPfx name).2 = none →
      getName st name =
        (if (stripBracketPfx name).1 ≠ "" then
            (stripBracketPfx name).1 ++ " "
              ++ ("other " ++ pad2 (st.counters ((stripBracketPfx name).1 ++ "_other") + 1))
          else "other " ++ pad2 (st.counters ((stripBracketPfx name).1 ++ "_other") + 1),
         bump st ((stripBracketPfx name).1 ++ "_other"))) := by
  constructor
  · intro code h
    simp [getName, h, bump]
  · intro h
    simp [getName, h, bump]

/-- Witness for `getName_shape`: the fresh-state rename of `"Japan 1"`
matches region `JP` and produces the zero-padded `"JP 01"`. -/
theorem getName_shape_witness :
    matchRegion (stripBracketPfx "Japan 1").2 = some "JP" ∧
    getName initRen "Japan 1" =
      (if (stripBracketPfx "Japan 1").1 ≠ "" then
          (stripBracketPfx "Japan 1").1 ++ " "
            ++ ("JP" ++ " " ++ pad2 (initRen.counters ((stripBracketPfx "Japan 1").1 ++ "_" ++ "JP") + 1))
        else "JP" ++ " " ++ pad2 (initRen.counters ((stripBracketPfx "Japan 1").1 ++ "_" ++ "JP") + 1),
       bump initRen ((stripBracketPfx "Japan 1").1 ++ "_" ++ "JP")) := by
  have h : matchRegion (stripBracketPfx "Japan 1").2 = some "JP" := by decide
  exact ⟨h, (getName_shape initRen "Japan 1").1 "JP" h⟩

/-! ## C8 -/

theorem keepNode_iff (filters excludes : List String) (node : String) :
    keepNode filters excludes node = true ↔
      (∀ ex ∈ excludes, ex ≠ "" → strContains node ex = false)
      ∧ (filters = [] ∨ ∃ f ∈ filters, f ≠ "" ∧ strContains node f = true) := by
  unfold keepNode
  simp [List.isEmpty_iff]

/-- C8: a node is a dynamic member of a `{all filter=... exclude=...}`
clause iff its name contains some nonempty filter keyword as a substring
(OR-combined) and contains no nonempty exclude keyword; with no
`filter=` token every non-excluded node matches. In particular, for
nodes `{"HK 01","HK 02","US 01"}` and rule
`Auto = url-test, {all filter=HK}` the resolved surge group line is
`Auto = url-test, HK 01, HK 02` — type `url-test`, members exactly
`["HK 01", "HK 02"]` in that order. -/
theorem filter_membership :
    (∀ (rule : String) (nodeNames : List String) (node : String) (cm : ClauseMatch),
        findClause rule.data = some cm →
        (node ∈ filter_node_list rule nodeNames ↔
          node ∈ nodeNames
            ∧ (∀ ex ∈ (parseFE cm.content).2, ex ≠ "" → strContains node ex = false)
            ∧ ((parseFE cm.content).1 = []
                ∨ ∃ f ∈ (parseFE cm.content).1, f ≠ "" ∧ strContains node f = true)))
    ∧ surgeGroupLine "Auto" "url-test, {all filter=HK}" ["HK 01", "HK 02", "US 01"]
        = "Auto = url-test, HK 01, HK 02" := by
  constructor
  · intro rule nodeNames node cm h
    unfold filter_node_list
    rw [h]
    rw [List.mem_filter]
    rw [keepNode_iff]
  · decide

/-- Witness for `filter_membership`: the membership characterization at
the rule `{all filter=HK exclude=02}` over `["HK 01", "HK 02", "US 01"]`
for the node `"HK 01"`, with the clause match made explicit. -/
theorem filter_membership_witness :
    "HK 01" ∈ filter_node_list "select, {all filter=HK exclude=02}"
        ["HK 01", "HK 02", "US 01"]
      ↔ "HK 01" ∈ (["HK 01", "HK 02", "US 01"] : List String)
        ∧ (∀ ex ∈ (parseFE (ClauseMatch.mk "select, ".data [' ']
              "filter=HK exclude=02".data []).content).2,
            ex ≠ "" → strContains "HK 01" ex = false)
        ∧ ((parseFE (ClauseMatch.mk "select, ".data [' ']
              "filter=HK exclude=02".data []).content).1 = []
            ∨ ∃ f ∈ (parseFE (ClauseMatch.mk "select, ".data [' ']
                "filter=HK exclude=02".data []).content).1,
                f ≠ "" ∧ strContains "HK 01" f = true) :=
  filter_membership.1 "select, {all filter=HK exclude=02}"
    ["HK 01", "HK 02", "US 01"] "HK 01"
    (ClauseMatch.mk "select, ".data [' '] "filter=HK exclude=02".data [])
    (by decide)

/-! ## C2 -/

/-- C2 counterexample: in the surge pipeline a manual entry whose name
collides with an already-retained entry REPLACES that entry (dict
assignment keyed by name, lines 419-421) instead of being disambiguated
with a numeric suffix: after merging manual line
`X = trojan, 2.2.2.2, 443, password=p` over a retained node `X`, the
set holds a single node `X` carrying the manual detail — no `X_2`. -/
theorem surge_manual_collision_replaces :
    surgeManual [("X", "X = ss, 1.1.1.1, 80")] ["X = trojan, 2.2.2.2, 443, password=p"]
      = [("X", "X = trojan, 2.2.2.2, 443, password=p")] := by
  decide

theorem resolveName_free (seen : List String) (n : String) (h : n ∉ seen) :
    resolveName seen n = n := by
  simp [resolveName, h]

theorem resolveName_suffix2 (seen : List String) (n : String)
    (h : n ∈ seen) (h2 : n ++ "_2" ∉ seen) :
    resolveName seen n = n ++ "_2" := by
  have hc : n ++ "_" ++ toString (2 : Nat) = n ++ "_2" := by
    rw [String.append_assoc]
    rfl
  unfold resolveName freeLoop
  simp only [h, if_true, hc, if_pos]
  simp [h2]

/-- C2 (amended): manual entries are never passed through the Location
Renamer in either pipeline. In the clash pipeline (`add_proxy` with
`skip_rename=True`) a literal name collision is resolved by appending
the numeric suffix `_2` (then `_3`, …), and the colliding node is
appended without dropping or replacing any retained node, with the
renamer state untouched. In the surge pipeline, however, a manual entry
that collides with a retained entry silently replaces that entry's
value under the same key (see the counterexample); non-colliding manual
entries are added under their verbatim (stripped) name. -/
theorem manual_entry_names :
    (∀ (excludeKeys : List String) (st : ClashState) (p : Proxy),
        p.name ≠ "" →
        excludeKeys.any (fun k => strContains p.name k) = false →
        ((p.ptype ≠ "" ∧ p.server ≠ "" ∧ p.port ≠ "") → proxyFp p ∉ st.seenFps) →
        (addProxy excludeKeys st p "" true).allProxies
            = st.allProxies ++ [{ p with name := resolveName st.seenNames p.name }]
          ∧ (addProxy excludeKeys st p "" true).ren = st.ren)
    ∧ (∀ (seen : List String) (n : String), n ∈ seen → n ++ "_2" ∉ seen →
        resolveName seen n = n ++ "_2")
    ∧ (∀ (seen : List String) (n : String), n ∉ seen → resolveName seen n = n)
    ∧ (∀ (m : List (String × String)) (line n0 d0 : String),
        sstrip line ≠ "" →
        sStarts (sstrip line) "#" = false → sStarts (sstrip line) ";" = false →
        sStarts (sstrip line) "//" = false → sStarts (sstrip line) "[" = false →
        shas (sstrip line) '=' = true →
        ssplitFirst '=' (sstrip line) = some (n0, d0) →
        surgeManual m [line]
          = ainsert m (sstrip n0) (sstrip n0 ++ " = " ++ sstrip d0)) := by
  refine ⟨?_, resolveName_suffix2, resolveName_free, ?_⟩
  · intro excludeKeys st p hn hex hfp
    unfold addProxy
    rw [if_neg hn]
    simp only [hex, Bool.false_eq_true, if_false, if_true]
    have hcond : ¬((p.ptype ≠ "" ∧ p.server ≠ "" ∧ p.port ≠ "")
        ∧ p.ptype ++ "|" ++ p.server ++ "|" ++ p.port ∈ st.seenFps) := by
      rintro ⟨hv, hmem⟩
      exact hfp hv hmem
    simp only [ne_eq, not_true_eq_false, reduceIte, hcond, if_false]
    constructor <;> trivial
  · intro m line n0 d0 hne h1 h2 h3 h4 h5 h6
    unfold surgeManual
    simp only [List.foldl_cons, List.foldl_nil]
    rw [if_neg (by simp [hne, h1, h2, h3, h4]), if_pos h5, h6]

/-- Witness for `manual_entry_names`: adding a manual node `X` to a
clash state that already holds a node named `X` appends `X_2` and keeps
the old node; the surge manual merge of a fresh `Y` inserts it under
its verbatim name. -/
theorem manual_entry_names_witness :
    (addProxy [] (ClashState.mk [⟨"X", "ss", "1.1.1.1", "80", []⟩] ["ss|1.1.1.1|80"] ["X"] initRen)
        ⟨"X", "trojan", "2.2.2.2", "443", []⟩ "" true).allProxies
        = [⟨"X", "ss", "1.1.1.1", "80", []⟩]
            ++ [{ Proxy.mk "X" "trojan" "2.2.2.2" "443" [] with
                  name := resolveName ["X"] "X" }]
      ∧ resolveName ["X"] "X" = "X" ++ "_2"
      ∧ resolveName ["Z"] "Y" = "Y"
      ∧ surgeManual [("X", "X = ss, 1.1.1.1, 80")] ["Y = snell, 3.3.3.3, 80, psk=k"]
          = ainsert [("X", "X = ss, 1.1.1.1, 80")] (sstrip "Y")
              (sstrip "Y" ++ " = " ++ sstrip "snell, 3.3.3.3, 80, psk=k") := by
  refine ⟨?_, ?_, ?_, ?_⟩
  · exact (manual_entry_names.1 [] _ _ (by decide) (by decide) (fun _ => by decide)).1
  · exact manual_entry_names.2.1 ["X"] "X" (by decide) (by decide)
  · exact manual_entry_names.2.2.1 ["Z"] "Y" (by decide)
  · exact manual_entry_names.2.2.2 [("X", "X = ss, 1.1.1.1, 80")]
      "Y = snell, 3.3.3.3, 80, psk=k" "Y " " snell, 3.3.3.3, 80, psk=k"
      (by decide) (by decide) (by decide) (by decide) (by decide) (by decide) (by decide)

/-! ## C5 -/

theorem containsChar_of_chSplitFirst (sep : Char) (l : List Char)
    (pr : List Char × List Char) (h : chSplitFirst sep l = some pr) :
    containsChar l sep = true := by
  induction l generalizing pr with
  | nil => simp [chSplitFirst] at h
  | cons c rest ih =>
    by_cases hc : c = sep
    · simp [containsChar, hc]
    · rw [chSplitFirst, if_neg hc] at h
      rcases hr : chSplitFirst sep rest with _ | pr'
      · rw [hr] at h; exact absurd h (by simp)
      · have := ih pr' hr
        simp [containsChar] at this ⊢
        exact Or.inr this

theorem alookup_foldl_ainsert_of_no_key {α : Type} (chains : List (String × α))
    (m : List (String × α)) (k : String)
    (h : ∀ c ∈ chains, c.1 ≠ k) :
    alookup (chains.foldl (fun acc c => ainsert acc c.1 c.2) m) k = alookup m k := by
  induction chains generalizing m with
  | nil => rfl
  | cons c rest ih =>
    simp only [List.foldl_cons]
    rw [ih _ (fun c' hc' => h c' (by simp [hc']))]
    exact alookup_ainsert_ne m c.1 k c.2 (fun he => h c (by simp) he.symm)

theorem alookup_foldl_ainsert_uniform {α : Type} (chains : List (String × α))
    (m : List (String × α)) (k : String) (v : α)
    (hall : ∀ c ∈ chains, c.1 = k → c.2 = v) (hmem : (k, v) ∈ chains) :
    alookup (chains.foldl (fun acc c => ainsert acc c.1 c.2) m) k = some v := by
  induction chains generalizing m with
  | nil => simp at hmem
  | cons c rest ih =>
    simp only [List.foldl_cons]
    by_cases hrest : (k, v) ∈ rest
    · exact ih _ (fun c' hc' => hall c' (by simp [hc'])) hrest
    · have hck : c = (k, v) := by
        rcases List.mem_cons.mp hmem with h | h
        · exact h.symm
        · exact absurd h hrest
      subst hck
      have hno : ∀ c' ∈ rest, c'.1 ≠ k := by
        intro c' hc' he
        have hv : c'.2 = v := hall c' (by simp [hc']) he
        exact hrest (by
          have : c' = (k, v) := Prod.ext he hv
          rwa [this] at hc')
      rw [alookup_foldl_ainsert_of_no_key rest _ k hno]
      exact alookup_ainsert_self m k v

theorem mem_keys_foldl_ainsert {α : Type} (chains : List (String × α))
    (m : List (String × α)) (k : String)
    (h : k ∈ (chains.foldl (fun acc c => ainsert acc c.1 c.2) m).map Prod.fst) :
    k ∈ m.map Prod.fst ∨ ∃ c ∈ chains, c.1 = k := by
  induction chains generalizing m with
  | nil => exact Or.inl h
  | cons c rest ih =>
    simp only [List.foldl_cons] at h
    rcases ih _ h with h' | h'
    · rcases mem_map_fst_ainsert m c.1 k c.2 h' with h'' | h''
      · exact Or.inl h''
      · exact Or.inr ⟨c, by simp, h''.symm⟩
    · rcases h' with ⟨c', hc', he⟩
      exact Or.inr ⟨c', by simp [hc'], he⟩

theorem sapp_right_cancel (a b s : String) (h : a ++ s = b ++ s) : a = b := by
  have hd : a.data ++ s.data = b.data ++ s.data := by
    have h2 := congrArg String.data h
    simpa [String.data_append] using h2
  have h3 : a.data = b.data := List.append_cancel_right hd
  cases a; cases b
  exact congrArg String.mk (by simpa using h3)

theorem surgeChain_eq (m : List (String × String)) (l a d0 : String)
    (hE : alookup m "EXIT" = some l)
    (hshas : shas l '=' = true)
    (hsp : ssplitFirst '=' l = some (a, d0)) :
    surgeChain m =
      (((m.filter (fun p => p.1 ≠ "EXIT" ∧ regionMatch3 p.1)).map
          (fun p => (p.1 ++ " Chain",
            p.1 ++ " Chain = " ++ sstrip d0 ++ ", underlying-proxy=" ++ p.1))).foldl
        (fun acc c => ainsert acc c.1 c.2) m) := by
  unfold surgeChain
  rw [hE]
  dsimp only
  rw [if_pos hshas, hsp]

/-- Surge-side chain synthesis (lines 426-446): a no-op when no node
named `EXIT` exists; when `EXIT` exists (with detail `d`), every other
retained node whose name contains `"JP "`, `"KR "` or `"TW "` as a
substring gets a `"<name> Chain"` key mapping to a line copying `EXIT`'s
detail plus `underlying-proxy=<name>`, and no other key is ever added. -/
theorem surgeChain_spec :
    (∀ m : List (String × String), alookup m "EXIT" = none → surgeChain m = m)
    ∧ (∀ (m : List (String × String)) (l a d0 : String),
        alookup m "EXIT" = some l →
        ssplitFirst '=' l = some (a, d0) →
        (∀ n v, (n, v) ∈ m → n ≠ "EXIT" → regionMatch3 n = true →
          alookup (surgeChain m) (n ++ " Chain")
            = some (n ++ " Chain = " ++ sstrip d0 ++ ", underlying-proxy=" ++ n))
        ∧ (∀ k, k ∈ (surgeChain m).map Prod.fst →
            k ∈ m.map Prod.fst
              ∨ ∃ c ∈ m, c.1 ≠ "EXIT" ∧ regionMatch3 c.1 = true ∧ k = c.1 ++ " Chain")) := by
  constructor
  · intro m h
    unfold surgeChain
    rw [h]
  · intro m l a d0 hE hsp
    have hshas : shas l '=' = true :=
      containsChar_of_chSplitFirst '=' l.data (a.data, d0.data) (by
        unfold ssplitFirst at hsp
        rcases hc : chSplitFirst '=' l.data with _ | pr
        · rw [hc] at hsp; exact absurd hsp (by simp)
        · rw [hc] at hsp
          rcases pr with ⟨x, y⟩
          simp only [Option.some.injEq, Prod.mk.injEq] at hsp
          rcases hsp with ⟨hx, hy⟩
          simp [← hx, ← hy])
    constructor
    · intro n v hmem hne hreg
      rw [surgeChain_eq m l a d0 hE hshas hsp]
      apply alookup_foldl_ainsert_uniform
      · rintro ⟨ck, cv⟩ hc hk
        simp only [List.mem_map, List.mem_filter] at hc
        rcases hc with ⟨p, ⟨_, hp⟩, hfc⟩
        simp only [Prod.mk.injEq] at hfc
        rcases hfc with ⟨hk1, hk2⟩
        have : p.1 = n := sapp_right_cancel p.1 n " Chain" (by rw [hk1]; exact hk)
        rw [← hk2, this]
      · rw [List.mem_map]
        exact ⟨(n, v), List.mem_filter.mpr ⟨hmem, by simp [hne, hreg]⟩, rfl⟩
    · intro k hk
      rw [surgeChain_eq m l a d0 hE hshas hsp] at hk
      rcases mem_keys_foldl_ainsert _ _ _ hk with h | ⟨c, hc, he⟩
      · exact Or.inl h
      · simp only [List.mem_map, List.mem_filter] at hc
        rcases hc with ⟨p, ⟨hpm, hp⟩, hfc⟩
        simp only [decide_eq_true_eq] at hp
        refine Or.inr ⟨p, hpm, hp.1, hp.2, ?_⟩
        rw [← he, ← hfc]

/-- C5 (amended): in BOTH pipelines chain synthesis is a no-op when no
node named exactly `EXIT` exists. When `EXIT` exists: on the surge side
every other retained node whose name contains `"JP "`, `"KR "` or
`"TW "` gets a `"<name> Chain"` key with `EXIT`'s detail plus an
`underlying-proxy=<name>` link, no other key is added, and the
synthesized entries are merged by dict update (a pre-existing key is
OVERWRITTEN); on the clash side the synthesized records — `EXIT`'s
record renamed to `"<name> Chain"` with a `dialer-proxy=<name>` link —
are APPENDED to the list, one per qualifying node and nothing else, so
a pre-existing record keeps its place and a name collision yields a
duplicate, not an overwrite. Neither pipeline guards against an
upstream name already ending in `" Chain"` (see the counterexample). -/
theorem chain_synthesis :
    ((∀ m : List (String × String), alookup m "EXIT" = none → surgeChain m = m)
      ∧ (∀ (m : List (String × String)) (l a d0 : String),
          alookup m "EXIT" = some l →
          ssplitFirst '=' l = some (a, d0) →
          (∀ n v, (n, v) ∈ m → n ≠ "EXIT" → regionMatch3 n = true →
            alookup (surgeChain m) (n ++ " Chain")
              = some (n ++ " Chain = " ++ sstrip d0 ++ ", underlying-proxy=" ++ n))
          ∧ (∀ k, k ∈ (surgeChain m).map Prod.fst →
              k ∈ m.map Prod.fst
                ∨ ∃ c ∈ m, c.1 ≠ "EXIT" ∧ regionMatch3 c.1 = true ∧ k = c.1 ++ " Chain")))
    ∧ (∀ st : ClashState,
        st.allProxies.find? (fun q => q.name = "EXIT") = none → clashChain st = st)
    ∧ (∀ (st : ClashState) (exitP : Proxy),
        st.allProxies.find? (fun q => q.name = "EXIT") = some exitP →
        (clashChain st).allProxies
          = st.allProxies
            ++ (st.allProxies.filter
                  (fun q => q.name ≠ "EXIT" ∧ regionMatch3 q.name)).map
                (fun q => { exitP with
                              name := (q.name ++ " Chain"),
                              params := (ainsert exitP.params "dialer-proxy"
                                (PVal.s q.name)) })) := by
  refine ⟨surgeChain_spec, ?_, ?_⟩
  · intro st h
    unfold clashChain
    rw [h]
  · intro st exitP h
    unfold clashChain
    rw [h]

/-- Witness for `chain_synthesis`: on the surge side a two-node set with
`EXIT` and `JP 01` yields the chain entry `JP 01 Chain` carrying `EXIT`'s
detail and the `underlying-proxy=JP 01` link, and a set without `EXIT` is
untouched; on the clash side the analogous state gains exactly the
appended `JP 01 Chain` record with `EXIT`'s connection data and a
`dialer-proxy=JP 01` param, and a state without `EXIT` is untouched. -/
theorem chain_synthesis_witness :
    surgeChain [("KR 01", "KR 01 = ss, 9.9.9.9, 80")] = [("KR 01", "KR 01 = ss, 9.9.9.9, 80")]
      ∧ alookup (surgeChain [("EXIT", "EXIT = ss, 1.1.1.1, 80, password=x"),
          ("JP 01", "JP 01 = ss, 2.2.2.2, 80")]) ("JP 01" ++ " Chain")
        = some ("JP 01" ++ " Chain = " ++ sstrip " ss, 1.1.1.1, 80, password=x"
            ++ ", underlying-proxy=" ++ "JP 01")
      ∧ clashChain (ClashState.mk [Proxy.mk "KR 01" "ss" "9.9.9.9" "80" []] [] [] initRen)
          = ClashState.mk [Proxy.mk "KR 01" "ss" "9.9.9.9" "80" []] [] [] initRen
      ∧ (clashChain (ClashState.mk
            [Proxy.mk "EXIT" "ss" "1.1.1.1" "80" [("password", PVal.s "x")],
             Proxy.mk "JP 01" "ss" "2.2.2.2" "80" []] [] [] initRen)).allProxies
          = [Proxy.mk "EXIT" "ss" "1.1.1.1" "80" [("password", PVal.s "x")],
             Proxy.mk "JP 01" "ss" "2.2.2.2" "80" [],
             Proxy.mk "JP 01 Chain" "ss" "1.1.1.1" "80"
               [("password", PVal.s "x"), ("dialer-proxy", PVal.s "JP 01")]] := by
  refine ⟨chain_synthesis.1.1 _ (by decide), ?_, chain_synthesis.2.1 _ rfl, ?_⟩
  · exact ((chain_synthesis.1.2 [("EXIT", "EXIT = ss, 1.1.1.1, 80, password=x"),
        ("JP 01", "JP 01 = ss, 2.2.2.2, 80")]
        "EXIT = ss, 1.1.1.1, 80, password=x" "EXIT " " ss, 1.1.1.1, 80, password=x"
        (by decide) (by decide)).1) "JP 01" "JP 01 = ss, 2.2.2.2, 80"
      (by decide) (by decide) (by decide)
  · exact (chain_synthesis.2.2 (ClashState.mk
        [Proxy.mk "EXIT" "ss" "1.1.1.1" "80" [("password", PVal.s "x")],
         Proxy.mk "JP 01" "ss" "2.2.2.2" "80" []] [] [] initRen)
        (Proxy.mk "EXIT" "ss" "1.1.1.1" "80" [("password", PVal.s "x")]) rfl).trans rfl

/-- C5 counterexample: the claimed guard against an upstream name
already ending in `" Chain"` exists in neither pipeline. With `EXIT`
present, a node named `JP A Chain` produces the pathological
`JP A Chain Chain` entry in both. When `JP A` also exists, the two
pipelines then diverge on the collision at `JP A Chain`: the surge dict
merge OVERWRITES the pre-existing `JP A Chain` entry with the
synthesized chain line, while the clash list append keeps the
pre-existing record (server `3.3.3.3`) and adds a second record with
the same name carrying `EXIT`'s server — duplicate names, no
overwrite. -/
theorem chain_no_guard :
    alookup (surgeChain [("EXIT", "EXIT = ss, 1.1.1.1, 80, password=x"),
        ("JP A", "JP A = ss, 2.2.2.2, 80"),
        ("JP A Chain", "JP A Chain = ss, 3.3.3.3, 80")]) "JP A Chain Chain"
      = some "JP A Chain Chain = ss, 1.1.1.1, 80, password=x, underlying-proxy=JP A Chain"
    ∧ alookup (surgeChain [("EXIT", "EXIT = ss, 1.1.1.1, 80, password=x"),
        ("JP A", "JP A = ss, 2.2.2.2, 80"),
        ("JP A Chain", "JP A Chain = ss, 3.3.3.3, 80")]) "JP A Chain"
      = some "JP A Chain = ss, 1.1.1.1, 80, password=x, underlying-proxy=JP A"
    ∧ (clashChain (ClashState.mk
          [Proxy.mk "EXIT" "ss" "1.1.1.1" "80" [("password", PVal.s "x")],
           Proxy.mk "JP A" "ss" "2.2.2.2" "80" [],
           Proxy.mk "JP A Chain" "ss" "3.3.3.3" "80" []]
          [] [] initRen)).allProxies.map Proxy.name
      = ["EXIT", "JP A", "JP A Chain", "JP A Chain", "JP A Chain Chain"]
    ∧ (clashChain (ClashState.mk
          [Proxy.mk "EXIT" "ss" "1.1.1.1" "80" [("password", PVal.s "x")],
           Proxy.mk "JP A" "ss" "2.2.2.2" "80" [],
           Proxy.mk "JP A Chain" "ss" "3.3.3.3" "80" []]
          [] [] initRen)).allProxies.map Proxy.server
      = ["1.1.1.1", "2.2.2.2", "3.3.3.3", "1.1.1.1", "1.1.1.1"] :=
  ⟨by decide, by decide, rfl, rfl⟩

/-! ## C1 -/

theorem mem_addSeen (s : List String) (x y : String) (h : x ∈ s) : x ∈ addSeen s y := by
  unfold addSeen
  split
  · exact h
  · simp [h]

theorem self_mem_addSeen (s : List String) (y : String) : y ∈ addSeen s y := by
  unfold addSeen
  split
  · assumption
  · simp

/-- `add_proxy` on a record whose fingerprint is checkable and already
seen: only the renamer state changes. -/
theorem addProxy_dup (excludeKeys : List String) (st : ClashState) (p : Proxy)
    (pfx : String) (skip : Bool)
    (h1 : p.name ≠ "")
    (h2 : ¬ (excludeKeys.any (fun k => strContains p.name k) = true))
    (h3 : (p.ptype ≠ "" ∧ p.server ≠ "" ∧ p.port ≠ "")
            ∧ p.ptype ++ "|" ++ p.server ++ "|" ++ p.port ∈ st.seenFps) :
    addProxy excludeKeys st p pfx skip
      = { st with ren := (if skip then (p.name, st.ren) else getName st.ren p.name).2 } := by
  unfold addProxy
  rw [if_neg h1, if_neg h2]
  dsimp only
  rw [if_pos h3]

/-- `add_proxy` on a record that passes every check: the record is
appended under its resolved name. -/
theorem addProxy_add (excludeKeys : List String) (st : ClashState) (p : Proxy)
    (pfx : String) (skip : Bool)
    (h1 : p.name ≠ "")
    (h2 : ¬ (excludeKeys.any (fun k => strContains p.name k) = true))
    (h3 : ¬ ((p.ptype ≠ "" ∧ p.server ≠ "" ∧ p.port ≠ "")
            ∧ p.ptype ++ "|" ++ p.server ++ "|" ++ p.port ∈ st.seenFps)) :
    addProxy excludeKeys st p pfx skip
      = { allProxies := st.allProxies
            ++ [{ p with name := (resolveName st.seenNames (if pfx ≠ "" then sstrip (pfx ++ " " ++ (if skip then (p.name, st.ren) else getName st.ren p.name).1) else (if skip then (p.name, st.ren) else getName st.ren p.name).1)) }],
          seenFps := (if p.ptype ≠ "" ∧ p.server ≠ "" ∧ p.port ≠ "" then addSeen st.seenFps (p.ptype ++ "|" ++ p.server ++ "|" ++ p.port) else st.seenFps),
          seenNames := (addSeen st.seenNames (resolveName st.seenNames (if pfx ≠ "" then sstrip (pfx ++ " " ++ (if skip then (p.name, st.ren) else getName st.ren p.name).1) else (if skip then (p.name, st.ren) else getName st.ren p.name).1))),
          ren := ((if skip then (p.name, st.ren) else getName st.ren p.name).2) } := by
  unfold addProxy
  rw [if_neg h1, if_neg h2]
  dsimp only
  rw [if_neg h3]

theorem addProxy_fpinv (excludeKeys : List String) (st : ClashState) (p : Proxy)
    (pfx : String) (skip : Bool) (h : FpInv st) :
    FpInv (addProxy excludeKeys st p pfx skip) := by
  by_cases h1 : p.name = ""
  · unfold addProxy
    rw [if_pos h1]
    exact h
  by_cases h2 : excludeKeys.any (fun k => strContains p.name k) = true
  · unfold addProxy
    rw [if_neg h1, if_pos h2]
    exact h
  by_cases h3 : (p.ptype ≠ "" ∧ p.server ≠ "" ∧ p.port ≠ "")
      ∧ p.ptype ++ "|" ++ p.server ++ "|" ++ p.port ∈ st.seenFps
  · rw [addProxy_dup excludeKeys st p pfx skip h1 h2 h3]
    exact ⟨h.1, h.2⟩
  · rw [addProxy_add excludeKeys st p pfx skip h1 h2 h3]
    rcases h with ⟨hmem, hpw⟩
    constructor
    · intro q hq hvq
      simp only [List.mem_append, List.mem_singleton] at hq
      rcases hq with hq | hq
      · have hin := hmem q hq hvq
        by_cases hfa : p.ptype ≠ "" ∧ p.server ≠ "" ∧ p.port ≠ ""
        · rw [if_pos hfa]
          exact mem_addSeen _ _ _ hin
        · rw [if_neg hfa]
          exact hin
      · subst hq
        have hvp : p.ptype ≠ "" ∧ p.server ≠ "" ∧ p.port ≠ "" := hvq
        rw [if_pos hvp]
        exact self_mem_addSeen _ _
    · rw [List.pairwise_append]
      refine ⟨hpw, by simp, ?_⟩
      intro x hx q hq
      simp only [List.mem_singleton] at hq
      subst hq
      intro hvx hvq heq
      have hvp : p.ptype ≠ "" ∧ p.server ≠ "" ∧ p.port ≠ "" := hvq
      have hnm : p.ptype ++ "|" ++ p.server ++ "|" ++ p.port ∉ st.seenFps := by
        intro hmem'
        exact h3 ⟨hvp, hmem'⟩
      have hxin := hmem x hx hvx
      have : proxyFp x = p.ptype ++ "|" ++ p.server ++ "|" ++ p.port := heq
      rw [this] at hxin
      exact hnm hxin

theorem foldl_fpinv {β : Type} (f : ClashState → β → ClashState)
    (hf : ∀ st x, FpInv st → FpInv (f st x)) :
    ∀ (l : List β) (st : ClashState), FpInv st → FpInv (l.foldl f st) := by
  intro l
  induction l with
  | nil => intro st h; exact h
  | cons x rest ih => intro st h; exact ih (f st x) (hf st x h)

theorem clashSourceRecords_fpinv (excludeKeys : List String) (srcPfx : String)
    (st : ClashState) (records : List Proxy) (h : FpInv st) :
    FpInv (clashSourceRecords excludeKeys srcPfx st records) :=
  foldl_fpinv _ (fun st p hs => addProxy_fpinv excludeKeys st p srcPfx false hs) records st h

theorem runClashSources_fpinv (excludeKeys : List String)
    (sources : List (String × List Proxy)) :
    FpInv (runClashSources excludeKeys sources) :=
  foldl_fpinv _ (fun st s hs => clashSourceRecords_fpinv excludeKeys s.1 st s.2 hs)
    sources initClash ⟨by simp [initClash], by simp [initClash]⟩

theorem clashManual_fpinv (excludeKeys : List String) (st : ClashState)
    (manualLines : List String) (h : FpInv st) :
    FpInv (clashManual excludeKeys st manualLines) := by
  apply foldl_fpinv _ _ manualLines st h
  intro st l hs
  rcases hp : parseClashManualLine l with _ | p
  · simpa [hp] using hs
  · simpa [hp] using addProxy_fpinv excludeKeys st p "" true hs

theorem parseStage1_spec (line n0 : String) (dParts : List String)
    (h : parseStage1 line = some (n0, dParts)) :
    ∃ a b : String,
      (shas (sstrip line) '=' ∧ ¬(sStarts (sstrip line) "#" ∨ sStarts (sstrip line) "//"
          ∨ sStarts (sstrip line) ";"))
      ∧ ssplitFirst '=' (sstrip line) = some (a, b)
      ∧ n0 = sstrip a
      ∧ dParts = (ssplit ',' (sstrip b)).map sstrip
      ∧ ¬ (((ssplit ',' (sstrip b)).map sstrip).length < 3) := by
  unfold parseStage1 at h
  by_cases hc : (shas (sstrip line) '=' ∧ ¬(sStarts (sstrip line) "#"
      ∨ sStarts (sstrip line) "//" ∨ sStarts (sstrip line) ";"))
  · rw [if_pos hc] at h
    rcases hsp : ssplitFirst '=' (sstrip line) with _ | ab
    · rw [hsp] at h
      exact absurd h (by simp)
    · rw [hsp] at h
      rcases ab with ⟨a, b⟩
      dsimp only at h
      by_cases hlen : ((ssplit ',' (sstrip b)).map sstrip).length < 3
      · rw [if_pos hlen] at h
        exact absurd h (by simp)
      · rw [if_neg hlen] at h
        simp only [Option.some.injEq, Prod.mk.injEq] at h
        exact ⟨a, b, hc, rfl, h.1.symm, h.2.symm, hlen⟩
  · rw [if_neg hc] at h
    exact absurd h (by simp)

/-- A surge text line whose fingerprint is already in
`seen_fingerprints` leaves the whole state (node set, seen set, renamer)
untouched: the fingerprint check precedes both the exclusion check and
the renaming. -/
theorem processSurgeLine_seen (excludeKeys : List String) (srcPfx line n0 : String)
    (dParts : List String) (st : SurgeState)
    (hp : parseStage1 line = some (n0, dParts))
    (hss : sstrip line = line)
    (hfp : fpOf (slower (dParts.getD 0 "")) (dParts.getD 1 "") (dParts.getD 2 "") ∈ st.seen) :
    processSurgeLine excludeKeys srcPfx st line = st := by
  rcases parseStage1_spec line n0 dParts hp with ⟨a, b, hc, hsp, _, hdp, hlen⟩
  rw [hss] at hc hsp
  unfold processSurgeLine
  rw [if_pos hc, hsp]
  dsimp only
  rw [if_neg hlen]
  rw [hdp] at hfp
  unfold fpOf at hfp
  rw [if_pos hfp]

/-- C1 (amended): during source aggregation the fingerprint dedup does
hold: in the clash pipeline (sources in declaration order, then manual
entries, all via `add_proxy`) no two retained records with a checkable
`(type, server, port)` share a fingerprint, and a record whose
fingerprint was already seen changes no retained state; likewise a
surge text line whose fingerprint was already seen leaves the state
untouched (first-seen wins). The FULL final set does not satisfy the
claim: surge manual entries bypass the check and chain nodes copy
`EXIT`'s fingerprint (see the counterexample). -/
theorem fingerprint_dedup :
    (∀ (excludeKeys : List String) (sources : List (String × List Proxy))
        (manualLines : List String),
        FpInv (clashManual excludeKeys (runClashSources excludeKeys sources) manualLines))
    ∧ (∀ (excludeKeys : List String) (st : ClashState) (p : Proxy) (pfx : String)
        (skip : Bool),
        (p.ptype ≠ "" ∧ p.server ≠ "" ∧ p.port ≠ "") →
        proxyFp p ∈ st.seenFps →
        (addProxy excludeKeys st p pfx skip).allProxies = st.allProxies
          ∧ (addProxy excludeKeys st p pfx skip).seenFps = st.seenFps
          ∧ (addProxy excludeKeys st p pfx skip).seenNames = st.seenNames)
    ∧ (∀ (excludeKeys : List String) (srcPfx line n0 : String) (dParts : List String)
        (st : SurgeState),
        parseStage1 line = some (n0, dParts) →
        sstrip line = line →
        fpOf (slower (dParts.getD 0 "")) (dParts.getD 1 "") (dParts.getD 2 "") ∈ st.seen →
        processSurgeLine excludeKeys srcPfx st line = st) := by
  refine ⟨?_, ?_, ?_⟩
  · intro excludeKeys sources manualLines
    exact clashManual_fpinv excludeKeys _ manualLines (runClashSources_fpinv excludeKeys sources)
  · intro excludeKeys st p pfx skip hv hmem
    by_cases h1 : p.name = ""
    · unfold addProxy
      rw [if_pos h1]
      exact ⟨rfl, rfl, rfl⟩
    by_cases h2 : excludeKeys.any (fun k => strContains p.name k) = true
    · unfold addProxy
      rw [if_neg h1, if_pos h2]
      exact ⟨rfl, rfl, rfl⟩
    · rw [addProxy_dup excludeKeys st p pfx skip h1 h2 ⟨hv, hmem⟩]
      exact ⟨rfl, rfl, rfl⟩
  · intro excludeKeys srcPfx line n0 dParts st hp hss hfp
    exact processSurgeLine_seen excludeKeys srcPfx line n0 dParts st hp hss hfp

/-- Witness for `fingerprint_dedup`: the invariant on a concrete run
with a duplicate-fingerprint record, the no-op result of adding a
duplicate record, and the no-op surge processing of a seen line. -/
theorem fingerprint_dedup_witness :
    FpInv (clashManual []
        (runClashSources [] [("", [⟨"Tokyo A", "ss", "1.1.1.1", "80", []⟩,
          ⟨"Osaka B", "ss", "1.1.1.1", "80", []⟩])]) [])
    ∧ (addProxy [] (ClashState.mk [] ["ss|1.1.1.1|80"] [] initRen)
          ⟨"N", "ss", "1.1.1.1", "80", []⟩ "" false).allProxies = []
    ∧ processSurgeLine [] "" (SurgeState.mk [] ["ss|1.1.1.1|80"] initRen)
        "N = ss, 1.1.1.1, 80"
      = SurgeState.mk [] ["ss|1.1.1.1|80"] initRen := by
  refine ⟨fingerprint_dedup.1 [] _ [], ?_, ?_⟩
  · exact (fingerprint_dedup.2.1 [] (ClashState.mk [] ["ss|1.1.1.1|80"] [] initRen)
      ⟨"N", "ss", "1.1.1.1", "80", []⟩ "" false (by decide) (by decide)).1
  · exact fingerprint_dedup.2.2 [] "" "N = ss, 1.1.1.1, 80" "N"
      ((ssplit ',' (sstrip " ss, 1.1.1.1, 80")).map sstrip)
      (SurgeState.mk [] ["ss|1.1.1.1|80"] initRen) (by decide) (by decide) (by decide)

/-- C1 counterexample: in the final surge node set of a concrete run,
the manual `EXIT` node and the synthesized `JP 01 Chain` node are both
retained and share the fingerprint `ss|1.1.1.1|80` — manual entries
bypass the fingerprint check and chain nodes copy `EXIT`'s connection
parameters. -/
theorem fingerprint_dup_in_final_set :
    alookup (surgeChain (surgeManual
        (runSurgeSources [] [("", ["Japan 1 = ss, 2.2.2.2, 80, password=y"])]).proxies
        ["EXIT = ss, 1.1.1.1, 80, password=x"])) "EXIT"
      = some "EXIT = ss, 1.1.1.1, 80, password=x"
    ∧ alookup (surgeChain (surgeManual
        (runSurgeSources [] [("", ["Japan 1 = ss, 2.2.2.2, 80, password=y"])]).proxies
        ["EXIT = ss, 1.1.1.1, 80, password=x"])) "JP 01 Chain"
      = some "JP 01 Chain = ss, 1.1.1.1, 80, password=x, underlying-proxy=JP 01"
    ∧ fpOfLine "EXIT = ss, 1.1.1.1, 80, password=x" = some "ss|1.1.1.1|80"
    ∧ fpOfLine "JP 01 Chain = ss, 1.1.1.1, 80, password=x, underlying-proxy=JP 01"
      = some "ss|1.1.1.1|80" := by
  refine ⟨?_, ?_, ?_, ?_⟩ <;> decide

/-! ## C10 -/

/-- C10: in the clash pipeline `add_proxy` renames before the
fingerprint check, so every non-excluded record with a name advances
the renamer counter of its bucket even when the record is then
discarded as a duplicate fingerprint; in the surge pipeline the
fingerprint check comes first, so a duplicate line leaves the renamer
(and everything else) untouched; hence the same input yields different
sequential suffixes under the two targets — concretely, records
`Tokyo A`, `Tokyo B` (same fingerprint), `Tokyo C` come out as
`JP 01`, `JP 03` in clash and `JP 01`, `JP 02` in surge. -/
theorem rename_order_divergence :
    (∀ (excludeKeys : List String) (st : ClashState) (p : Proxy) (pfx : String),
        p.name ≠ "" →
        ¬ (excludeKeys.any (fun k => strContains p.name k) = true) →
        (addProxy excludeKeys st p pfx false).ren.counters (bucketKey p.name)
          = st.ren.counters (bucketKey p.name) + 1)
    ∧ (∀ (excludeKeys : List String) (srcPfx line n0 : String) (dParts : List String)
        (st : SurgeState),
        parseStage1 line = some (n0, dParts) →
        sstrip line = line →
        fpOf (slower (dParts.getD 0 "")) (dParts.getD 1 "") (dParts.getD 2 "") ∈ st.seen →
        processSurgeLine excludeKeys srcPfx st line = st)
    ∧ ((clashSourceRecords [] "" initClash
          [⟨"Tokyo A", "ss", "1.1.1.1", "80", []⟩,
           ⟨"Tokyo B", "ss", "1.1.1.1", "80", []⟩,
           ⟨"Tokyo C", "ss", "3.3.3.3", "80", []⟩]).allProxies.map Proxy.name
        = ["JP 01", "JP 03"]
      ∧ (runSurgeSources [] [("", ["Tokyo A = ss, 1.1.1.1, 80",
            "Tokyo B = ss, 1.1.1.1, 80", "Tokyo C = ss, 3.3.3.3, 80"])]).proxies.map
          Prod.fst
        = ["JP 01", "JP 02"]) := by
  refine ⟨?_, processSurgeLine_seen, ?_⟩
  · intro excludeKeys st p pfx h1 h2
    by_cases h3 : (p.ptype ≠ "" ∧ p.server ≠ "" ∧ p.port ≠ "")
        ∧ p.ptype ++ "|" ++ p.server ++ "|" ++ p.port ∈ st.seenFps
    · rw [addProxy_dup excludeKeys st p pfx false h1 h2 h3]
      simp only [Bool.false_eq_true, if_false]
      rw [getName_snd, bump_self]
    · rw [addProxy_add excludeKeys st p pfx false h1 h2 h3]
      simp only [Bool.false_eq_true, if_false]
      rw [getName_snd, bump_self]
  · constructor <;> decide

/-- Witness for `rename_order_divergence`: adding a duplicate
fingerprint record still advances the renamer counter for its bucket,
and a seen surge line is a no-op. -/
theorem rename_order_divergence_witness :
    (addProxy [] (ClashState.mk [] ["ss|1.1.1.1|80"] [] initRen)
        ⟨"Tokyo B", "ss", "1.1.1.1", "80", []⟩ "" false).ren.counters (bucketKey "Tokyo B")
      = (ClashState.mk [] ["ss|1.1.1.1|80"] [] initRen).ren.counters (bucketKey "Tokyo B") + 1
    ∧ processSurgeLine [] "" (SurgeState.mk [] ["ss|1.1.1.1|80"] initRen)
        "Tokyo B = ss, 1.1.1.1, 80"
      = SurgeState.mk [] ["ss|1.1.1.1|80"] initRen := by
  constructor
  · exact rename_order_divergence.1 [] (ClashState.mk [] ["ss|1.1.1.1|80"] [] initRen)
      ⟨"Tokyo B", "ss", "1.1.1.1", "80", []⟩ "" (by decide) (by decide)
  · exact rename_order_divergence.2.1 [] "" "Tokyo B = ss, 1.1.1.1, 80" "Tokyo B"
      ((ssplit ',' (sstrip " ss, 1.1.1.1, 80")).map sstrip)
      (SurgeState.mk [] ["ss|1.1.1.1|80"] initRen) (by decide) (by decide) (by decide)

/-! ## C7 -/

theorem occCount_zero (n : String) (ns : List String) :
    occCount (n :: ns) 0 = 1 := by
  simp [occCount]

theorem occCount_succ (n : String) (ns : List String) (i : Nat) :
    occCount (n :: ns) (i + 1)
      = (if bucketKey n = bucketKey (ns.getD i "") then 1 else 0) + occCount ns i := by
  unfold occCount
  rw [List.take_succ_cons, List.getD_cons_succ, List.filter_cons]
  by_cases h : bucketKey n = bucketKey (ns.getD i "")
  · rw [List.getD_eq_getElem?_getD] at h
    simp [h]
    omega
  · rw [List.getD_eq_getElem?_getD] at h
    simp [h]

theorem renRun_getD (names : List String) :
    ∀ (st : RenState) (i : Nat), i < names.length →
    (renRun st names).1.getD i ""
      = renderName (names.getD i "")
          (st.counters (bucketKey (names.getD i "")) + occCount names i) := by
  induction names with
  | nil => intro st i h; simp at h
  | cons n ns ih =>
    intro st i h
    cases i with
    | zero =>
      show ((getName st n).1 :: (renRun (getName st n).2 ns).1).getD 0 "" = _
      rw [List.getD_cons_zero, getName_fst, List.getD_cons_zero, occCount_zero]
    | succ i =>
      have hi : i < ns.length := by simpa using h
      show ((getName st n).1 :: (renRun (getName st n).2 ns).1).getD (i + 1) "" = _
      rw [List.getD_cons_succ, ih (getName st n).2 i hi, getName_snd,
          List.getD_cons_succ, occCount_succ]
      by_cases hb : bucketKey n = bucketKey (ns.getD i "")
      · rw [← hb, bump_self, hb, if_pos rfl]
        ring_nf
      · rw [bump_ne st (bucketKey n) (bucketKey (ns.getD i "")) (fun he => hb he.symm),
            if_neg hb]
        ring_nf

theorem occCount_strict (names : List String) (i j : Nat)
    (hij : i < j) (hj : j < names.length)
    (hb : bucketKey (names.getD i "") = bucketKey (names.getD j "")) :
    occCount names i < occCount names j := by
  have hgd : names.getD j "" = names[j] := by
    simp [List.getD_eq_getElem?_getD, List.getElem?_eq_getElem hj]
  have htake : names.take (j + 1) = names.take j ++ [names[j]] := by
    rw [List.take_succ]
    simp [List.getElem?_eq_getElem hj]
  have hj' : occCount names j
      = ((names.take j).filter (fun n => bucketKey n = bucketKey (names.getD j ""))).length
        + 1 := by
    unfold occCount
    rw [htake, List.filter_append, List.length_append]
    simp [List.filter_cons, List.getD_eq_getElem?_getD, List.getElem?_eq_getElem hj]
  have hle : occCount names i
      ≤ ((names.take j).filter (fun n => bucketKey n = bucketKey (names.getD j ""))).length := by
    unfold occCount
    have hpre : List.Sublist (names.take (i + 1)) (names.take j) := by
      have : (names.take j).take (i + 1) = names.take (i + 1) := by
        rw [List.take_take]
        congr 1
        omega
      rw [← this]
      exact (List.take_prefix _ _).sublist
    calc ((names.take (i + 1)).filter
            (fun n => bucketKey n = bucketKey (names.getD i ""))).length
        = ((names.take (i + 1)).filter
            (fun n => bucketKey n = bucketKey (names.getD j ""))).length := by rw [hb]
      _ ≤ _ := (hpre.filter _).length_le
  omega

/-- C7: the Location Renamer is deterministic and monotonic within one
run: the `i`-th output of a freshly constructed renamer on any ordered
name sequence is exactly `renderName` of the `i`-th name with the
number of same-bucket names seen so far (so identical input sequences
always produce identical outputs, each bucket starts at 01, and
counters never reset); and the counter values assigned within one
`(prefix, region)` bucket — the fallback `other` bucket included —
are strictly increasing along the run. -/
theorem renamer_deterministic_monotonic :
    (∀ (names : List String) (i : Nat), i < names.length →
      (renRun initRen names).1.getD i ""
        = renderName (names.getD i "") (occCount names i))
    ∧ (∀ (names : List String) (i j : Nat), i < j → j < names.length →
        bucketKey (names.getD i "") = bucketKey (names.getD j "") →
        occCount names i < occCount names j) := by
  constructor
  · intro names i h
    have := renRun_getD names initRen i h
    simpa [initRen] using this
  · exact occCount_strict

/-- Witness for `renamer_deterministic_monotonic`: on
`["Tokyo A", "[FP] Osaka", "Tokyo B"]` the third output is the formula
value for `Tokyo B` (bucket `_JP`, second occurrence), and the counter
of the `_JP` bucket strictly increases between positions 0 and 2. -/
theorem renamer_deterministic_monotonic_witness :
    (renRun initRen ["Tokyo A", "[FP] Osaka", "Tokyo B"]).1.getD 2 ""
        = renderName (["Tokyo A", "[FP] Osaka", "Tokyo B"].getD 2 "")
            (occCount ["Tokyo A", "[FP] Osaka", "Tokyo B"] 2)
      ∧ occCount ["Tokyo A", "[FP] Osaka", "Tokyo B"] 0
          < occCount ["Tokyo A", "[FP] Osaka", "Tokyo B"] 2 := by
  constructor
  · exact renamer_deterministic_monotonic.1 ["Tokyo A", "[FP] Osaka", "Tokyo B"] 2
      (by decide)
  · exact renamer_deterministic_monotonic.2 ["Tokyo A", "[FP] Osaka", "Tokyo B"] 0 2
      (by decide) (by decide) (by decide)

/-! ## C4 -/

theorem alookup_cons_hit {α : Type} (hd : String × α) (tl : List (String × α))
    (k : String) (hh : hd.1 = k) : alookup (hd :: tl) k = some hd.2 := by
  simp [alookup, List.find?, hh]

theorem alookup_cons_miss {α : Type} (hd : String × α) (tl : List (String × α))
    (k : String) (hh : hd.1 ≠ k) : alookup (hd :: tl) k = alookup tl k := by
  simp [alookup, List.find?, hh]

theorem alookup_mem {α : Type} (m : List (String × α)) (k : String) (v : α)
    (h : alookup m k = some v) : (k, v) ∈ m := by
  induction m with
  | nil => simp [alookup] at h
  | cons hd tl ih =>
    by_cases hh : hd.1 = k
    · rw [alookup_cons_hit hd tl k hh] at h
      have hv : hd.2 = v := by simpa using h
      exact List.mem_cons.mpr (Or.inl (by rw [← hh, ← hv]))
    · rw [alookup_cons_miss hd tl k hh] at h
      exact List.mem_cons.mpr (Or.inr (ih h))

theorem mem_ainsert {α : Type} (m : List (String × α)) (k : String) (v : α)
    (x : String × α) (h : x ∈ ainsert m k v) : x ∈ m ∨ x = (k, v) := by
  induction m with
  | nil => simpa [ainsert] using h
  | cons hd tl ih =>
    by_cases hh : hd.1 = k
    · rw [ainsert, if_pos hh] at h
      rcases List.mem_cons.mp h with h | h
      · exact Or.inr h
      · exact Or.inl (by simp [h])
    · rw [ainsert, if_neg hh] at h
      rcases List.mem_cons.mp h with h | h
      · exact Or.inl (by simp [h])
      · rcases ih h with h | h
        · exact Or.inl (by simp [h])
        · exact Or.inr h

theorem flatten_ainsert_group (gs : List (String × List (String × String)))
    (k : String) (l : List (String × String)) (p : String × String)
    (h : alookup gs k = some l) :
    ((ainsert gs k (l ++ [p])).map Prod.snd).flatten.Perm
      ((gs.map Prod.snd).flatten ++ [p]) := by
  induction gs with
  | nil => simp [alookup] at h
  | cons g tl ih =>
    by_cases hh : g.1 = k
    · rw [alookup_cons_hit g tl k hh] at h
      have hv : g.2 = l := by simpa using h
      rw [ainsert, if_pos hh]
      simp only [List.map_cons, List.flatten_cons, hv]
      rw [List.append_assoc, List.append_assoc]
      exact List.Perm.append_left l List.perm_append_comm
    · rw [alookup_cons_miss g tl k hh] at h
      rw [ainsert, if_neg hh]
      simp only [List.map_cons, List.flatten_cons]
      rw [List.append_assoc]
      exact List.Perm.append_left g.2 (ih h)

theorem gstep_inv (gs : List (String × List (String × String)))
    (p : String × String) (h : GInv gs) :
    GInv (gstep gs p)
      ∧ ((gstep gs p).map Prod.snd).flatten.Perm ((gs.map Prod.snd).flatten ++ [p]) := by
  rcases h with ⟨hmem, hnd⟩
  unfold gstep
  rcases hl : alookup gs (pfxOfName p.1) with _ | l
  all_goals simp only [hl]
  · have hnotin : pfxOfName p.1 ∉ gs.map Prod.fst := (alookup_eq_none _ _).mp hl
    refine ⟨⟨?_, ?_⟩, ?_⟩
    · intro g hg q hq
      rcases List.mem_append.mp hg with hg | hg
      · exact hmem g hg q hq
      · simp only [List.mem_singleton] at hg
        subst hg
        simp only [List.mem_singleton] at hq
        subst hq
        rfl
    · simp [List.nodup_append, hnd, hnotin]
    · simp
  · have hin : pfxOfName p.1 ∈ gs.map Prod.fst := by
      by_contra hc
      rw [← alookup_eq_none gs (pfxOfName p.1)] at hc
      rw [hl] at hc
      exact absurd hc (by simp)
    refine ⟨⟨?_, ?_⟩, ?_⟩
    · intro g hg q hq
      rcases mem_ainsert _ _ _ g hg with hg2 | hg2
      · exact hmem g hg2 q hq
      · subst hg2
        simp only at hq
        rcases List.mem_append.mp hq with hq | hq
        · exact hmem (pfxOfName p.1, l) (alookup_mem gs _ l hl) q hq
        · simp only [List.mem_singleton] at hq
          subst hq
          rfl
    · rw [map_fst_ainsert_mem gs _ _ hin]
      exact hnd
    · exact flatten_ainsert_group gs _ l p hl

theorem groupByPfx_fold (m : List (String × String)) :
    ∀ gs, GInv gs →
      GInv (m.foldl gstep gs)
        ∧ ((m.foldl gstep gs).map Prod.snd).flatten.Perm
            ((gs.map Prod.snd).flatten ++ m) := by
  induction m with
  | nil => intro gs h; exact ⟨h, by simp⟩
  | cons p m2 ih =>
    intro gs h
    rcases gstep_inv gs p h with ⟨h1, h2⟩
    rcases ih (gstep gs p) h1 with ⟨h3, h4⟩
    refine ⟨h3, ?_⟩
    have e : ((gs.map Prod.snd).flatten ++ [p]) ++ m2
        = (gs.map Prod.snd).flatten ++ (p :: m2) := by simp
    exact h4.trans (e ▸ List.Perm.append_right m2 h2)

theorem groupByPfx_inv (m : List (String × String)) :
    GInv (groupByPfx m) ∧ ((groupByPfx m).map Prod.snd).flatten.Perm m := by
  have h := groupByPfx_fold m [] ⟨by simp, by simp⟩
  unfold groupByPfx
  simpa using h

theorem map_alookup_sorted (gs : List (String × List (String × String)))
    (hnd : (gs.map Prod.fst).Nodup) :
    (gs.map Prod.fst).map (fun pre =>
        match alookup gs pre with
        | some l => List.insertionSort nmLe l
        | none => [])
      = gs.map (fun g => List.insertionSort nmLe g.2) := by
  induction gs with
  | nil => rfl
  | cons g tl ih =>
    simp only [List.map_cons, List.nodup_cons] at hnd ⊢
    congr 1
    · rw [alookup_cons_hit g tl g.1 rfl]
    · have htl : ∀ k ∈ tl.map Prod.fst,
          (match alookup (g :: tl) k with
            | some l => List.insertionSort nmLe l
            | none => [])
          = (match alookup tl k with
            | some l => List.insertionSort nmLe l
            | none => []) := by
        intro k hk
        have hne : g.1 ≠ k := fun he => hnd.1 (he ▸ hk)
        rw [alookup_cons_miss g tl k hne]
      rw [List.map_congr_left htl]
      exact ih hnd.2

theorem flatten_sort_perm (gs : List (String × List (String × String))) :
    ((gs.map (fun g => List.insertionSort nmLe g.2)).flatten).Perm
      ((gs.map Prod.snd).flatten) := by
  induction gs with
  | nil => rfl
  | cons g tl ih =>
    simp only [List.map_cons, List.flatten_cons]
    exact List.Perm.append (List.perm_insertionSort nmLe g.2) ih

theorem pairwise_flatten_blocks {α : Type} (R : α → α → Prop) :
    ∀ L : List (List α), (∀ l ∈ L, l.Pairwise R) →
      L.Pairwise (fun l1 l2 => ∀ x ∈ l1, ∀ y ∈ l2, R x y) →
      L.flatten.Pairwise R := by
  intro L
  induction L with
  | nil => intro _ _; simp
  | cons l tl ih =>
    intro hin hcross
    rw [List.flatten_cons, List.pairwise_append]
    rcases List.pairwise_cons.mp hcross with ⟨hhead, htl⟩
    refine ⟨hin l (by simp), ih (fun l2 hl2 => hin l2 (by simp [hl2])) htl, ?_⟩
    intro a ha b hb
    rcases List.mem_flatten.mp hb with ⟨l2, hl2, hb2⟩
    exact hhead l2 hl2 a ha b hb2

theorem assemble_aux (gs : List (String × List (String × String))) (hinv : GInv gs) :
    (((List.insertionSort preLe (gs.map Prod.fst)).map (fun pre =>
        match alookup gs pre with
        | some l => List.insertionSort nmLe l
        | none => [])).flatten).Pairwise claimLe
    ∧ (((List.insertionSort preLe (gs.map Prod.fst)).map (fun pre =>
        match alookup gs pre with
        | some l => List.insertionSort nmLe l
        | none => [])).flatten).Perm ((gs.map Prod.snd).flatten) := by
  rcases hinv with ⟨hmem, hnd⟩
  have hperm0 : (List.insertionSort preLe (gs.map Prod.fst)).Perm (gs.map Prod.fst) :=
    List.perm_insertionSort preLe (gs.map Prod.fst)
  have hsorted : (List.insertionSort preLe (gs.map Prod.fst)).Pairwise preLe :=
    List.sorted_insertionSort preLe (gs.map Prod.fst)
  have hnd2 : (List.insertionSort preLe (gs.map Prod.fst)).Nodup :=
    hperm0.nodup_iff.mpr hnd
  have hblock : ∀ pre x, x ∈ (match alookup gs pre with
      | some l => List.insertionSort nmLe l
      | none => ([] : List (String × String))) → pfxOfName x.1 = pre := by
    intro pre x hx
    rcases hl : alookup gs pre with _ | l
    · rw [hl] at hx
      simp at hx
    · rw [hl] at hx
      have hx2 : x ∈ l := (List.mem_insertionSort nmLe).mp hx
      exact hmem (pre, l) (alookup_mem gs pre l hl) x hx2
  constructor
  · apply pairwise_flatten_blocks
    · intro b hb
      rcases List.mem_map.mp hb with ⟨pre, hpre, hfb⟩
      rcases hl : alookup gs pre with _ | l
      · rw [hl] at hfb
        rw [← hfb]
        simp
      · rw [hl] at hfb
        rw [← hfb]
        have hs : (List.insertionSort nmLe l).Pairwise nmLe :=
          List.sorted_insertionSort nmLe l
        apply hs.imp_of_mem
        intro x y hx hy hxy
        have hpx : pfxOfName x.1 = pre := hblock pre x (by rw [hl]; exact hx)
        have hpy : pfxOfName y.1 = pre := hblock pre y (by rw [hl]; exact hy)
        exact Or.inl ⟨by rw [hpx, hpy], hxy⟩
    · rw [List.pairwise_map]
      have hcomb := hsorted.and hnd2
      apply hcomb.imp
      intro a b hab
      intro x hx y hy
      have hpx := hblock a x hx
      have hpy := hblock b y hy
      exact Or.inr ⟨by rw [hpx, hpy]; exact hab.2, by rw [hpx, hpy]; exact hab.1⟩
  · refine ((hperm0.map _).flatten).trans ?_
    rw [map_alookup_sorted gs hnd]
    exact flatten_sort_perm gs

/-- C4 (amended): the surge `[Proxy]` section emits exactly the
canonical nodes (a permutation of the node set), grouped by bracket
prefix with the empty prefix last and sorted by name within each
prefix group (`claimLe` is the spec-side ordering; its antisymmetric
prefix component forces the groups to be contiguous). The structured
(clash) output does NOT follow this ordering: it emits
`all_proxies` in plain insertion order (see the counterexample). -/
theorem surge_order (m : List (String × String)) :
    (surgeAssembleList m).Pairwise claimLe ∧ (surgeAssembleList m).Perm m := by
  unfold surgeAssembleList
  rcases groupByPfx_inv m with ⟨hinv, hperm⟩
  rcases assemble_aux (groupByPfx m) hinv with ⟨h1, h2⟩
  exact ⟨h1, h2.trans hperm⟩

/-- C4 counterexample: a clash run whose manual entries arrive as
`B`, `A` emits the `proxies:` list in insertion order `["B", "A"]`,
which violates the claimed prefix-grouped name-sorted ordering (the
structured serializer never sorts, lines 867-870). -/
theorem clash_order_not_sorted :
    (clashProxiesOut (clashManual [] initClash
        ["B = ss, 1.1.1.1, 80", "A = ss, 2.2.2.2, 80"])).map Proxy.name = ["B", "A"]
    ∧ ¬ (List.Pairwise claimLeName ["B", "A"]) := by
  constructor
  · decide
  · intro h
    rcases List.pairwise_cons.mp h with ⟨hh, _⟩
    have h1 : claimLeName "B" "A" := hh "A" (by simp)
    rcases h1 with ⟨_, hle⟩ | ⟨hne, _⟩
    · have hc : ("B" : String).toList ≤ ("A" : String).toList :=
        String.le_iff_toList_le.mp hle
      exact absurd hc (by decide)
    · exact hne (by decide)

/-! ## C3: character-level transport lemmas -/

theorem strEq_of_data (a b : String) (h : a.data = b.data) : a = b := by
  cases a; cases b
  exact congrArg String.mk (by simpa using h)

theorem containsChar_append (a b : List Char) (c : Char) :
    containsChar (a ++ b) c = (containsChar a c || containsChar b c) := by
  simp [containsChar, List.any_append]

theorem chSplitFirst_append (sep : Char) (a b : List Char)
    (h : containsChar a sep = false) :
    chSplitFirst sep (a ++ sep :: b) = some (a, b) := by
  induction a with
  | nil => simp [chSplitFirst]
  | cons c rest ih =>
    simp only [containsChar, List.any_cons, Bool.or_eq_false_iff] at h
    have hc : ¬ c = sep := by
      intro he
      simp [he] at h
    rw [List.cons_append, chSplitFirst, if_neg hc, ih (by simp [containsChar, h.2])]

theorem chSplit_ne_nil (sep : Char) (l : List Char) : chSplit sep l ≠ [] := by
  induction l with
  | nil => simp [chSplit]
  | cons c rest ih =>
    rw [chSplit]
    rcases hr : chSplit sep rest with _ | ⟨h1, t1⟩
    · simp
    · by_cases hc : c = sep <;> simp [hc]

theorem chSplit_nosep (sep : Char) (a : List Char) (h : containsChar a sep = false) :
    chSplit sep a = [a] := by
  induction a with
  | nil => rfl
  | cons c rest ih =>
    simp only [containsChar, List.any_cons, Bool.or_eq_false_iff] at h
    have hc : ¬ c = sep := by
      intro he
      simp [he] at h
    rw [chSplit, ih (by simp [containsChar, h.2])]
    dsimp only
    rw [if_neg hc]

theorem chSplit_append (sep : Char) (a b : List Char)
    (h : containsChar a sep = false) :
    chSplit sep (a ++ sep :: b) = a :: chSplit sep b := by
  induction a with
  | nil =>
    simp only [List.nil_append]
    rw [chSplit]
    rcases hb : chSplit sep b with _ | ⟨h1, t1⟩
    · exact absurd hb (chSplit_ne_nil sep b)
    · dsimp only
      rw [if_pos rfl]
  | cons c rest ih =>
    simp only [containsChar, List.any_cons, Bool.or_eq_false_iff] at h
    have hc : ¬ c = sep := by
      intro he
      simp [he] at h
    rw [List.cons_append, chSplit, ih (by simp [containsChar, h.2])]
    dsimp only
    rw [if_neg hc]

theorem trimC_eq_self (l : List Char) (h1 : noWsHeadB l = true)
    (h2 : noWsLastB l = true) : trimC l = l := by
  unfold trimC
  have hd : l.dropWhile isWs = l := by
    cases l with
    | nil => rfl
    | cons c rest =>
      have h1b : isWs c = false := by simpa [noWsHeadB] using h1
      rw [List.dropWhile_cons, if_neg (by simp [h1b])]
  rw [hd]
  have hr : l.reverse.dropWhile isWs = l.reverse := by
    cases hrev : l.reverse with
    | nil => rfl
    | cons c rest =>
      have hlast : l.getLast? = some c := by
        rw [← List.head?_reverse, hrev]
        rfl
      have h2b : isWs c = false := by simpa [noWsLastB, hlast] using h2
      rw [List.dropWhile_cons, if_neg (by simp [h2b])]
  rw [hr, List.reverse_reverse]

theorem trimC_cons_ws (c : Char) (l : List Char) (h : isWs c = true) :
    trimC (c :: l) = trimC l := by
  unfold trimC
  rw [List.dropWhile_cons, if_pos h]

theorem trimC_append_ws (l : List Char) :
    trimC (l ++ [' ']) = trimC l := by
  unfold trimC
  rw [List.dropWhile_append]
  rcases hd : l.dropWhile isWs with _ | ⟨c, rest⟩
  · simp [List.dropWhile_cons, isWs]
  · simp only [List.isEmpty_cons, Bool.false_eq_true, if_false, List.reverse_cons,
      List.reverse_append, List.reverse_singleton, List.singleton_append, List.cons_append,
      List.reverse_nil, List.nil_append, List.append_assoc]
    rw [List.dropWhile_cons, if_pos (by simp [isWs])]

theorem noWsLastB_append_right (a b : List Char) (h : b ≠ []) :
    noWsLastB (a ++ b) = noWsLastB b := by
  unfold noWsLastB
  rw [List.getLast?_append]
  rcases hb : b.getLast? with _ | c
  · rw [List.getLast?_eq_none_iff] at hb
    exact absurd hb h
  · simp [Option.or]

theorem noWsHeadB_append (a b : List Char) (h : a ≠ []) :
    noWsHeadB (a ++ b) = noWsHeadB a := by
  rcases a with _ | ⟨c, rest⟩
  · exact absurd rfl h
  · rfl

/-! ## C3: the serialized line's field structure -/

theorem joinComma_cons_cons (f r : List Char) (rest : List (List Char)) :
    joinComma (f :: r :: rest) = f ++ ',' :: ' ' :: joinComma (r :: rest) := by
  simp [joinComma]

theorem chSplit_joinComma :
    ∀ (rest : List (List Char)) (f : List Char),
      containsChar f ',' = false → (∀ r ∈ rest, containsChar r ',' = false) →
      chSplit ',' (joinComma (f :: rest)) = f :: rest.map (fun r => ' ' :: r) := by
  intro rest
  induction rest with
  | nil =>
    intro f hf _
    have : joinComma [f] = f := by simp [joinComma]
    rw [this, chSplit_nosep ',' f hf]
    rfl
  | cons r rest2 ih =>
    intro f hf hr
    rw [joinComma_cons_cons, chSplit_append ',' f _ hf]
    have hsw : (' ' :: joinComma (r :: rest2)) = joinComma ((' ' :: r) :: rest2) := by
      simp [joinComma]
    rw [hsw, ih (' ' :: r)
      (by simp [containsChar]; exact (by simpa [containsChar] using hr r (by simp)))
      (fun r2 hr2 => hr r2 (by simp [hr2]))]
    simp

theorem joinComma_getLast :
    ∀ (fields : List (List Char)) (lf : List Char),
      fields.getLast? = some lf → lf ≠ [] →
      (joinComma fields).getLast? = lf.getLast? := by
  intro fields
  induction fields with
  | nil => intro lf h; simp at h
  | cons f rest ih =>
    intro lf h hlf
    rcases rest with _ | ⟨r, rest2⟩
    · have hfl : f = lf := by simpa using h
      subst hfl
      simp [joinComma]
    · have h2 : (r :: rest2).getLast? = some lf := by
        rwa [List.getLast?_cons_cons] at h
      have hj := ih lf h2 hlf
      rcases hc : lf.getLast? with _ | c
      · rw [List.getLast?_eq_none_iff] at hc
        exact absurd hc hlf
      · rw [joinComma_cons_cons]
        rw [show (',' :: ' ' :: joinComma (r :: rest2))
            = [',', ' '] ++ joinComma (r :: rest2) from rfl]
        rw [← List.append_assoc, List.getLast?_append, hj, hc]
        simp [Option.or]

theorem joinComma_head (f : List Char) (rest : List (List Char)) (hf : f ≠ []) :
    noWsHeadB (joinComma (f :: rest)) = noWsHeadB f := by
  unfold joinComma
  exact noWsHeadB_append f _ hf

theorem sjoin_data :
    ∀ (rest : List String) (f : String),
      (rest.foldl (fun acc y => acc ++ ", " ++ y) f).data
        = joinComma (f.data :: rest.map String.data) := by
  intro rest
  induction rest with
  | nil => intro f; simp [joinComma]
  | cons r rest2 ih =>
    intro f
    show (rest2.foldl _ (f ++ ", " ++ r)).data = _
    rw [ih (f ++ ", " ++ r)]
    rw [show ((f ++ ", " ++ r)).data = f.data ++ [',', ' '] ++ r.data by
      simp [String.data_append]]
    simp [joinComma, List.append_assoc]

theorem data_ne_nil_of_ne (s : String) (h : s ≠ "") : s.data ≠ [] := by
  intro hd
  exact h (strEq_of_data s "" (by simpa using hd))

/-- The common strip/split stage recovers the name and the fields of a
well-formed serialized line. -/
theorem parseStage1_line (nm : String) (fields : List String)
    (hnm : cleanName nm)
    (hfields : ∀ x ∈ fields, containsChar x.data ',' = false
        ∧ noWsHeadB x.data = true ∧ noWsLastB x.data = true)
    (hhead : ∀ hf, fields.head? = some hf → hf ≠ "")
    (hlast : ∀ lf, fields.getLast? = some lf → lf ≠ "")
    (hlen : 3 ≤ fields.length) :
    loopVisible (nm ++ " = " ++ sjoin ", " fields)
      ∧ parseStage1 (nm ++ " = " ++ sjoin ", " fields) = some (nm, fields) := by
  rcases hnm with ⟨hneq, hnl, hnh, hnlast, hncmt, hnsec⟩
  have hnmne : nm.data ≠ [] := by
    intro h
    rw [h] at hncmt
    simp [headNotComment] at hncmt
  rcases fields with _ | ⟨f0, rest⟩
  · simp at hlen
  have hf0 : f0 ≠ "" := hhead f0 rfl
  have hf0d : f0.data ≠ [] := data_ne_nil_of_ne f0 hf0
  obtain ⟨lf, hlf⟩ : ∃ lf, (f0 :: rest).getLast? = some lf := by
    rcases hc : (f0 :: rest).getLast? with _ | lf
    · rw [List.getLast?_eq_none_iff] at hc
      exact absurd hc (by simp)
    · exact ⟨lf, rfl⟩
  have hlfne : lf ≠ "" := hlast lf hlf
  have hlfd : lf.data ≠ [] := data_ne_nil_of_ne lf hlfne
  have hlfmem : lf ∈ f0 :: rest := List.mem_of_mem_getLast? hlf
  have hJlastEq : (joinComma (f0.data :: rest.map String.data)).getLast?
      = lf.data.getLast? := by
    apply joinComma_getLast
    · rw [show (f0.data :: rest.map String.data)
          = (f0 :: rest).map String.data from rfl]
      rw [List.getLast?_map, hlf]
      rfl
    · exact hlfd
  have hJlast : noWsLastB (joinComma (f0.data :: rest.map String.data)) = true := by
    unfold noWsLastB
    rw [hJlastEq]
    have := (hfields lf hlfmem).2.2
    unfold noWsLastB at this
    exact this
  have hJhead : noWsHeadB (joinComma (f0.data :: rest.map String.data)) = true := by
    rw [joinComma_head f0.data _ hf0d]
    exact (hfields f0 (by simp)).2.1
  have hJne : joinComma (f0.data :: rest.map String.data) ≠ [] := by
    intro h
    rw [h] at hJlastEq
    have hnone : lf.data.getLast? = none := by simpa using hJlastEq.symm
    rw [List.getLast?_eq_none_iff] at hnone
    exact hlfd hnone
  have hdata : (nm ++ " = " ++ sjoin ", " (f0 :: rest)).data
      = nm.data ++ (' ' :: '=' :: ' ' :: joinComma (f0.data :: rest.map String.data)) := by
    rw [show sjoin ", " (f0 :: rest)
        = rest.foldl (fun acc y => acc ++ ", " ++ y) f0 from rfl]
    simp only [String.data_append, sjoin_data rest f0]
    simp [List.append_assoc]
  -- the whole line survives strip()
  have hstrip : trimC (nm ++ " = " ++ sjoin ", " (f0 :: rest)).data
      = (nm ++ " = " ++ sjoin ", " (f0 :: rest)).data := by
    rw [hdata]
    apply trimC_eq_self
    · rw [noWsHeadB_append _ _ hnmne]
      exact hnh
    · rw [noWsLastB_append_right _ _ (by simp)]
      rw [show (' ' :: '=' :: ' ' :: joinComma (f0.data :: rest.map String.data))
          = [' ', '=', ' '] ++ joinComma (f0.data :: rest.map String.data) from rfl]
      rw [noWsLastB_append_right _ _ hJne]
      exact hJlast
  rcases hnmd : nm.data with _ | ⟨c0, nmt⟩
  · exact absurd hnmd hnmne
  have hc0 : ¬(c0 = '#' ∨ c0 = ';' ∨ c0 = '/') := by
    rw [hnmd] at hncmt
    simpa [headNotComment] using hncmt
  have hc0sec : ¬(c0 = '[') := by
    rw [hnmd] at hnsec
    simpa [headNotSection] using hnsec
  have hlne : nm ++ " = " ++ sjoin ", " (f0 :: rest) ≠ "" := by
    intro h
    have h2 := congrArg String.data h
    rw [hdata, hnmd] at h2
    simp at h2
  have hnb : sStarts (nm ++ " = " ++ sjoin ", " (f0 :: rest)) "[" = false := by
    show ("[".data.isPrefixOf (nm ++ " = " ++ sjoin ", " (f0 :: rest)).data) = false
    rw [hdata, hnmd]
    have hbr : ('[' == c0) = false := by
      rw [beq_eq_false_iff_ne]
      exact fun h => hc0sec h.symm
    simp [List.isPrefixOf, hbr]
  have hcond : shas (nm ++ " = " ++ sjoin ", " (f0 :: rest)) '='
      ∧ ¬(sStarts (nm ++ " = " ++ sjoin ", " (f0 :: rest)) "#"
          ∨ sStarts (nm ++ " = " ++ sjoin ", " (f0 :: rest)) "//"
          ∨ sStarts (nm ++ " = " ++ sjoin ", " (f0 :: rest)) ";") := by
    constructor
    · show containsChar _ '=' = true
      rw [hdata, containsChar_append]
      simp [containsChar]
    · intro hbad
      have hpre : ∀ p : String, sStarts (nm ++ " = " ++ sjoin ", " (f0 :: rest)) p = true →
          ∀ pc pt, p.data = pc :: pt → pc = c0 := by
        intro p hp pc pt hpd
        have : p.data.isPrefixOf (nm ++ " = " ++ sjoin ", " (f0 :: rest)).data = true := hp
        rw [hdata, hnmd] at this
        rw [hpd] at this
        simp only [List.cons_append, List.isPrefixOf] at this
        exact (by simpa using (Bool.and_eq_true_iff.mp this).1)
      rcases hbad with hb | hb | hb
      · exact hc0 (Or.inl (hpre "#" hb '#' [] rfl).symm)
      · exact hc0 (Or.inr (Or.inr (hpre "//" hb '/' ['/'] rfl).symm))
      · exact hc0 (Or.inr (Or.inl (hpre ";" hb ';' [] rfl).symm))
  refine ⟨⟨strEq_of_data _ _ hstrip, hlne, hnb, hcond.1⟩, ?_⟩
  unfold parseStage1
  rw [show sstrip (nm ++ " = " ++ sjoin ", " (f0 :: rest))
      = nm ++ " = " ++ sjoin ", " (f0 :: rest) from
    strEq_of_data _ _ hstrip]
  rw [if_pos hcond]
  have hsplitf : ssplitFirst '=' (nm ++ " = " ++ sjoin ", " (f0 :: rest))
      = some (⟨nm.data ++ [' ']⟩,
              ⟨' ' :: joinComma (f0.data :: rest.map String.data)⟩) := by
    unfold ssplitFirst
    rw [hdata]
    rw [show nm.data ++ (' ' :: '=' :: ' ' :: joinComma (f0.data :: rest.map String.data))
        = (nm.data ++ [' '])
          ++ '=' :: (' ' :: joinComma (f0.data :: rest.map String.data)) by
      simp [List.append_assoc]]
    rw [chSplitFirst_append '=' _ _ (by
      rw [containsChar_append, hneq]
      simp [containsChar])]
  rw [hsplitf]
  dsimp only
  have hname : sstrip ⟨nm.data ++ [' ']⟩ = nm := by
    apply strEq_of_data
    show trimC (nm.data ++ [' ']) = nm.data
    rw [trimC_append_ws]
    exact trimC_eq_self nm.data hnh hnlast
  have hdetail : sstrip ⟨' ' :: joinComma (f0.data :: rest.map String.data)⟩
      = ⟨joinComma (f0.data :: rest.map String.data)⟩ := by
    apply strEq_of_data
    show trimC (' ' :: joinComma (f0.data :: rest.map String.data))
        = joinComma (f0.data :: rest.map String.data)
    rw [trimC_cons_ws _ _ (by simp [isWs])]
    exact trimC_eq_self _ hJhead hJlast
  rw [hname, hdetail]
  have hsplit : ssplit ',' ⟨joinComma (f0.data :: rest.map String.data)⟩
      = ⟨f0.data⟩ :: (rest.map String.data).map (fun r => (⟨' ' :: r⟩ : String)) := by
    show (chSplit ',' (joinComma (f0.data :: rest.map String.data))).map
        (fun l => (⟨l⟩ : String)) = _
    rw [chSplit_joinComma (rest.map String.data) f0.data
      (hfields f0 (by simp)).1
      (by
        intro r hr
        rcases List.mem_map.mp hr with ⟨r0, hr0, hrd⟩
        rw [← hrd]
        exact (hfields r0 (by simp [hr0])).1)]
    simp
  rw [hsplit]
  have hhd : sstrip ⟨f0.data⟩ = f0 := by
    apply strEq_of_data
    show trimC f0.data = f0.data
    exact trimC_eq_self f0.data (hfields f0 (by simp)).2.1 (hfields f0 (by simp)).2.2
  have htailgen : ∀ rs : List String,
      (∀ r ∈ rs, noWsHeadB r.data = true ∧ noWsLastB r.data = true) →
      (((rs.map String.data).map (fun r => (⟨' ' :: r⟩ : String))).map sstrip) = rs := by
    intro rs
    induction rs with
    | nil => intro _; rfl
    | cons r rs2 ih =>
      intro hrs
      simp only [List.map_cons]
      have h1 : sstrip ⟨' ' :: r.data⟩ = r := by
        apply strEq_of_data
        show trimC (' ' :: r.data) = r.data
        rw [trimC_cons_ws _ _ (by simp [isWs])]
        exact trimC_eq_self r.data (hrs r (by simp)).1 (hrs r (by simp)).2
      rw [h1, ih (fun x hx => hrs x (by simp [hx]))]
  have htail : (((rest.map String.data).map (fun r => (⟨' ' :: r⟩ : String))).map sstrip)
      = rest :=
    htailgen rest (fun r hr =>
      ⟨(hfields r (by simp [hr])).2.1, (hfields r (by simp [hr])).2.2⟩)
  have hmapped : (((⟨f0.data⟩ : String)
        :: (rest.map String.data).map (fun r => (⟨' ' :: r⟩ : String))).map sstrip)
      = f0 :: rest := by
    rw [List.map_cons, hhd, htail]
  rw [hmapped]
  rw [if_neg (by omega)]

/-! ## C3: key=value extraction and field cleanliness -/

theorem kvStep_eq (kv : List (String × String)) (key v : String)
    (hkey : containsChar key.data '=' = false)
    (hkeyTrim : trimC key.data = key.data)
    (hvTrim : trimC v.data = v.data) :
    kvStep kv (key ++ "=" ++ v) = ainsert kv key v := by
  unfold kvStep
  have hdata : (key ++ "=" ++ v).data = key.data ++ '=' :: v.data := by
    simp [String.data_append]
  rw [if_pos (show shas (key ++ "=" ++ v) '=' = true by
    show containsChar _ '=' = true
    rw [hdata, containsChar_append]
    simp [containsChar])]
  rw [show ssplitFirst '=' (key ++ "=" ++ v) = some (⟨key.data⟩, ⟨v.data⟩) by
    unfold ssplitFirst
    rw [hdata, chSplitFirst_append '=' _ _ hkey]]
  dsimp only
  rw [show sstrip ⟨key.data⟩ = key from strEq_of_data _ _ hkeyTrim,
      show sstrip ⟨v.data⟩ = v from strEq_of_data _ _ hvTrim]

theorem cleanVal_trim (v : String) (hv : cleanVal v) : trimC v.data = v.data :=
  trimC_eq_self v.data hv.2.2.1 hv.2.2.2

theorem fieldClean_lit (lit v : String)
    (hl1 : containsChar lit.data ',' = false) (hl2 : lit.data ≠ [])
    (hl3 : noWsHeadB lit.data = true) (hl4 : noWsLastB lit.data = true)
    (hv : cleanVal v) :
    containsChar (lit ++ v).data ',' = false ∧ noWsHeadB (lit ++ v).data = true
      ∧ noWsLastB (lit ++ v).data = true := by
  obtain ⟨hv1, _, hv3, hv4⟩ := hv
  refine ⟨?_, ?_, ?_⟩
  · rw [String.data_append, containsChar_append, hl1, hv1]
    rfl
  · rw [String.data_append, noWsHeadB_append _ _ hl2]
    exact hl3
  · rw [String.data_append]
    by_cases hvd : v.data = []
    · rw [hvd, List.append_nil]
      exact hl4
    · rw [noWsLastB_append_right _ _ hvd]
      exact hv4

theorem append_ne_empty_left (s t : String) (h : s.data ≠ []) : s ++ t ≠ "" := by
  intro he
  have := congrArg String.data he
  rw [String.data_append] at this
  simp only at this
  rcases List.append_eq_nil.mp (by simpa using this) with ⟨h1, _⟩
  exact h h1

theorem mem_of_containsChar (l : List Char) (c : Char)
    (h : containsChar l c = true) : c ∈ l := by
  unfold containsChar at h
  rcases List.any_eq_true.mp h with ⟨x, hx, he⟩
  rw [decide_eq_true_eq] at he
  exact he ▸ hx

/-- A line containing `=` can never be the `[Proxy]` section header
(which contains none), whatever lowercasing does to it. -/
theorem slower_ne_section (line : String) (h : shas line '=' = true) :
    slower line ≠ "[proxy]" := by
  intro he
  have hm : '=' ∈ line.data := mem_of_containsChar _ _ h
  have hd : line.data.map Char.toLower = "[proxy]".data := congrArg String.data he
  have hmem : Char.toLower '=' ∈ line.data.map Char.toLower :=
    List.mem_map_of_mem Char.toLower hm
  rw [hd] at hmem
  exact absurd hmem (by decide)

/-- The clash text scan (lines 613-624) on a single visible line: the
line is neither blank, nor the `[Proxy]` header, nor another section
header, nor suppressed pre-`[Proxy]` content, so it goes straight to the
record parser and, on success, to `add_proxy`. -/
theorem clashSourceLines_single (ek : List String) (pfx : String) (st : ClashState)
    (line : String) (h : loopVisible line) :
    clashSourceLines ek pfx st [line]
      = match parseClashTextLine line with
        | some p => addProxy ek st p pfx false
        | none => st := by
  obtain ⟨hstrip, hne, hnb, heqc⟩ := h
  have hnp : slower line ≠ "[proxy]" := slower_ne_section line heqc
  have hsec : ([line].any (fun l => slower (sstrip l) = "[proxy]")) = false := by
    simp [hstrip, hnp]
  unfold clashSourceLines
  rw [hsec]
  simp only [List.foldl_cons, List.foldl_nil, hstrip]
  rw [if_neg hne, if_neg hnp]
  rw [if_neg (fun hco => by rw [hnb] at hco; exact absurd hco.1 (by simp))]
  rw [if_neg (by simp)]
  rcases hp : parseClashTextLine line with _ | q <;> simp [hp]

theorem roundtrip_ss (nm : String) (p : Proxy)
    (hty : p.ptype = "ss")
    (hnm : cleanName nm)
    (hs : cleanVal p.server) (hp : cleanVal p.port)
    (hv : ∀ v ∈ emittedVals p, cleanVal v) :
    (parseClashTextLine (surgeLineOf nm p)).map reqTuple = some (reqTuple p)
      ∧ loopVisible (surgeLineOf nm p) := by
  have hC : cleanVal (pgetStr p "cipher") := hv _ (by simp [emittedVals, hty])
  have hW : cleanVal (pgetStr p "password") := hv _ (by simp [emittedVals, hty])
  have hline : surgeLineOf nm p
      = nm ++ " = " ++ sjoin ", " ["ss", p.server, p.port,
          "encrypt-method" ++ "=" ++ pgetStr p "cipher",
          "password" ++ "=" ++ pgetStr p "password"] := by
    apply strEq_of_data
    unfold surgeLineOf
    rw [hty]
    simp [String.data_append, sjoin, List.append_assoc]
  have hPL : loopVisible (nm ++ " = " ++ sjoin ", " ["ss", p.server, p.port,
          "encrypt-method" ++ "=" ++ pgetStr p "cipher",
          "password" ++ "=" ++ pgetStr p "password"])
      ∧ parseStage1 (nm ++ " = " ++ sjoin ", " ["ss", p.server, p.port,
          "encrypt-method" ++ "=" ++ pgetStr p "cipher",
          "password" ++ "=" ++ pgetStr p "password"])
        = some (nm, ["ss", p.server, p.port,
          "encrypt-method" ++ "=" ++ pgetStr p "cipher",
          "password" ++ "=" ++ pgetStr p "password"]) := by
    apply parseStage1_line nm _ hnm
    · intro x hx
      simp only [List.mem_cons, List.not_mem_nil, or_false] at hx
      rcases hx with h | h | h | h | h <;> subst h
      · exact ⟨by decide, by decide, by decide⟩
      · exact ⟨hs.1, hs.2.2.1, hs.2.2.2⟩
      · exact ⟨hp.1, hp.2.2.1, hp.2.2.2⟩
      · exact fieldClean_lit ("encrypt-method" ++ "=") _ (by decide) (by decide)
          (by decide) (by decide) hC
      · exact fieldClean_lit ("password" ++ "=") _ (by decide) (by decide)
          (by decide) (by decide) hW
    · intro hf h
      simp only [List.head?_cons, Option.some.injEq] at h
      subst h
      decide
    · intro lf h
      simp only [List.getLast?_cons_cons, List.getLast?_singleton,
        Option.some.injEq] at h
      subst h
      exact append_ne_empty_left _ _ (by decide)
    · simp
  rw [← hline] at hPL
  have hkv : kvBuild ["encrypt-method" ++ "=" ++ pgetStr p "cipher",
        "password" ++ "=" ++ pgetStr p "password"]
      = [("encrypt-method", pgetStr p "cipher"), ("password", pgetStr p "password")] := by
    unfold kvBuild
    simp only [List.foldl_cons, List.foldl_nil]
    rw [kvStep_eq [] "encrypt-method" _ (by decide) (by decide) (cleanVal_trim _ hC)]
    rw [kvStep_eq _ "password" _ (by decide) (by decide) (cleanVal_trim _ hW)]
    simp [ainsert]
  refine ⟨?_, hPL.1⟩
  unfold parseClashTextLine
  rw [hPL.2]
  dsimp only
  simp only [List.getD_cons_zero, List.getD_cons_succ, List.drop_succ_cons,
    List.drop_zero]
  rw [show slower "ss" = "ss" from by decide, if_pos rfl, hkv]
  simp [reqTuple, pgetStr, kvGet, alookup, List.find?, pvStr, hty]

theorem roundtrip_vmess (nm : String) (p : Proxy)
    (hty : p.ptype = "vmess")
    (hnm : cleanName nm)
    (hs : cleanVal p.server) (hp : cleanVal p.port)
    (hv : ∀ v ∈ emittedVals p, cleanVal v) :
    (parseClashTextLine (surgeLineOf nm p)).map reqTuple = some (reqTuple p)
      ∧ loopVisible (surgeLineOf nm p) := by
  have hU : cleanVal (pgetStr p "uuid") := hv _ (by simp [emittedVals, hty])
  have hT : cleanVal (if pTruthy p "tls" then "true" else "false") := by
    cases htls : pTruthy p "tls"
    · rw [if_neg (by simp [htls])]
      decide
    · rw [if_pos (by simp [htls])]
      decide
  have hline : surgeLineOf nm p
      = nm ++ " = " ++ sjoin ", " ["vmess", p.server, p.port,
          "username" ++ "=" ++ pgetStr p "uuid",
          "tls" ++ "=" ++ (if pTruthy p "tls" then "true" else "false")] := by
    apply strEq_of_data
    unfold surgeLineOf
    rw [hty]
    simp [String.data_append, sjoin, List.append_assoc]
  have hPL : loopVisible (nm ++ " = " ++ sjoin ", " ["vmess", p.server, p.port,
          "username" ++ "=" ++ pgetStr p "uuid",
          "tls" ++ "=" ++ (if pTruthy p "tls" then "true" else "false")])
      ∧ parseStage1 (nm ++ " = " ++ sjoin ", " ["vmess", p.server, p.port,
          "username" ++ "=" ++ pgetStr p "uuid",
          "tls" ++ "=" ++ (if pTruthy p "tls" then "true" else "false")])
        = some (nm, ["vmess", p.server, p.port,
          "username" ++ "=" ++ pgetStr p "uuid",
          "tls" ++ "=" ++ (if pTruthy p "tls" then "true" else "false")]) := by
    apply parseStage1_line nm _ hnm
    · intro x hx
      simp only [List.mem_cons, List.not_mem_nil, or_false] at hx
      rcases hx with h | h | h | h | h <;> subst h
      · exact ⟨by decide, by decide, by decide⟩
      · exact ⟨hs.1, hs.2.2.1, hs.2.2.2⟩
      · exact ⟨hp.1, hp.2.2.1, hp.2.2.2⟩
      · exact fieldClean_lit ("username" ++ "=") _ (by decide) (by decide)
          (by decide) (by decide) hU
      · exact fieldClean_lit ("tls" ++ "=") _ (by decide) (by decide)
          (by decide) (by decide) hT
    · intro hf h
      simp only [List.head?_cons, Option.some.injEq] at h
      subst h
      decide
    · intro lf h
      simp only [List.getLast?_cons_cons, List.getLast?_singleton,
        Option.some.injEq] at h
      subst h
      exact append_ne_empty_left _ _ (by decide)
    · simp
  rw [← hline] at hPL
  have hkv : kvBuild ["username" ++ "=" ++ pgetStr p "uuid",
        "tls" ++ "=" ++ (if pTruthy p "tls" then "true" else "false")]
      = [("username", pgetStr p "uuid"),
         ("tls", if pTruthy p "tls" then "true" else "false")] := by
    unfold kvBuild
    simp only [List.foldl_cons, List.foldl_nil]
    rw [kvStep_eq [] "username" _ (by decide) (by decide) (cleanVal_trim _ hU)]
    rw [kvStep_eq _ "tls" _ (by decide) (by decide) (cleanVal_trim _ hT)]
    simp [ainsert]
  refine ⟨?_, hPL.1⟩
  unfold parseClashTextLine
  rw [hPL.2]
  dsimp only
  simp only [List.getD_cons_zero, List.getD_cons_succ, List.drop_succ_cons,
    List.drop_zero]
  rw [show slower "vmess" = "vmess" from by decide]
  rw [if_neg (by decide), if_pos rfl]
  simp only [hkv]
  have hrq : reqTuple p = some ("vmess", p.server, p.port,
      [pgetStr p "uuid", if pTruthy p "tls" then "true" else "false"]) := by
    unfold reqTuple
    rw [hty]
    simp
  rw [hrq]
  cases htls : pTruthy p "tls" <;>
    simp [reqTuple, pgetStr, pTruthy, pvTruthy, kvGet, kvHas, alookup,
      List.find?, pvStr, hty, htls]

theorem roundtrip_trojan (nm : String) (p : Proxy)
    (hty : p.ptype = "trojan")
    (hnm : cleanName nm)
    (hs : cleanVal p.server) (hp : cleanVal p.port)
    (hv : ∀ v ∈ emittedVals p, cleanVal v) :
    (parseClashTextLine (surgeLineOf nm p)).map reqTuple = some (reqTuple p)
      ∧ loopVisible (surgeLineOf nm p) := by
  have hW : cleanVal (pgetStr p "password") := hv _ (by simp [emittedVals, hty])
  have hSni : cleanVal (pgetStr p "sni") := hv _ (by simp [emittedVals, hty])
  have hT : cleanVal (if pTruthy p "skip-cert-verify" then "true" else "false") := by
    cases hscv : pTruthy p "skip-cert-verify"
    · rw [if_neg (by simp [hscv])]
      decide
    · rw [if_pos (by simp [hscv])]
      decide
  by_cases hsni : pgetStr p "sni" = ""
  · have hline : surgeLineOf nm p
        = nm ++ " = " ++ sjoin ", " ["trojan", p.server, p.port,
            "password" ++ "=" ++ pgetStr p "password",
            "skip-cert-verify" ++ "="
              ++ (if pTruthy p "skip-cert-verify" then "true" else "false")] := by
      apply strEq_of_data
      unfold surgeLineOf
      rw [hty]
      simp [String.data_append, sjoin, List.append_assoc, hsni]
    have hPL : loopVisible (nm ++ " = " ++ sjoin ", " ["trojan", p.server, p.port,
            "password" ++ "=" ++ pgetStr p "password",
            "skip-cert-verify" ++ "="
              ++ (if pTruthy p "skip-cert-verify" then "true" else "false")])
        ∧ parseStage1 (nm ++ " = " ++ sjoin ", " ["trojan", p.server, p.port,
            "password" ++ "=" ++ pgetStr p "password",
            "skip-cert-verify" ++ "="
              ++ (if pTruthy p "skip-cert-verify" then "true" else "false")])
          = some (nm, ["trojan", p.server, p.port,
            "password" ++ "=" ++ pgetStr p "password",
            "skip-cert-verify" ++ "="
              ++ (if pTruthy p "skip-cert-verify" then "true" else "false")]) := by
      apply parseStage1_line nm _ hnm
      · intro x hx
        simp only [List.mem_cons, List.not_mem_nil, or_false] at hx
        rcases hx with h | h | h | h | h <;> subst h
        · exact ⟨by decide, by decide, by decide⟩
        · exact ⟨hs.1, hs.2.2.1, hs.2.2.2⟩
        · exact ⟨hp.1, hp.2.2.1, hp.2.2.2⟩
        · exact fieldClean_lit ("password" ++ "=") _ (by decide) (by decide)
            (by decide) (by decide) hW
        · exact fieldClean_lit ("skip-cert-verify" ++ "=") _ (by decide) (by decide)
            (by decide) (by decide) hT
      · intro hf h
        simp only [List.head?_cons, Option.some.injEq] at h
        subst h
        decide
      · intro lf h
        simp only [List.getLast?_cons_cons, List.getLast?_singleton,
          Option.some.injEq] at h
        subst h
        exact append_ne_empty_left _ _ (by decide)
      · simp
    rw [← hline] at hPL
    have hkv : kvBuild ["password" ++ "=" ++ pgetStr p "password",
          "skip-cert-verify" ++ "="
            ++ (if pTruthy p "skip-cert-verify" then "true" else "false")]
        = [("password", pgetStr p "password"),
           ("skip-cert-verify", if pTruthy p "skip-cert-verify" then "true" else "false")] := by
      unfold kvBuild
      simp only [List.foldl_cons, List.foldl_nil]
      rw [kvStep_eq [] "password" _ (by decide) (by decide) (cleanVal_trim _ hW)]
      rw [kvStep_eq _ "skip-cert-verify" _ (by decide) (by decide) (cleanVal_trim _ hT)]
      simp [ainsert]
    refine ⟨?_, hPL.1⟩
    unfold parseClashTextLine
    rw [hPL.2]
    dsimp only
    simp only [List.getD_cons_zero, List.getD_cons_succ, List.drop_succ_cons,
      List.drop_zero]
    rw [show slower "trojan" = "trojan" from by decide]
    rw [if_neg (by decide), if_neg (by decide), if_pos rfl]
    simp only [hkv]
    cases hscv : pTruthy p "skip-cert-verify" <;>
      simp [reqTuple, pgetStr, kvGet, kvHas, alookup, List.find?, pvStr, hty, hscv]
  · have hline : surgeLineOf nm p
        = nm ++ " = " ++ sjoin ", " ["trojan", p.server, p.port,
            "password" ++ "=" ++ pgetStr p "password",
            "skip-cert-verify" ++ "="
              ++ (if pTruthy p "skip-cert-verify" then "true" else "false"),
            "sni" ++ "=" ++ pgetStr p "sni"] := by
      apply strEq_of_data
      unfold surgeLineOf
      rw [hty]
      simp [String.data_append, sjoin, List.append_assoc, hsni]
    have hPL : loopVisible (nm ++ " = " ++ sjoin ", " ["trojan", p.server, p.port,
            "password" ++ "=" ++ pgetStr p "password",
            "skip-cert-verify" ++ "="
              ++ (if pTruthy p "skip-cert-verify" then "true" else "false"),
            "sni" ++ "=" ++ pgetStr p "sni"])
        ∧ parseStage1 (nm ++ " = " ++ sjoin ", " ["trojan", p.server, p.port,
            "password" ++ "=" ++ pgetStr p "password",
            "skip-cert-verify" ++ "="
              ++ (if pTruthy p "skip-cert-verify" then "true" else "false"),
            "sni" ++ "=" ++ pgetStr p "sni"])
          = some (nm, ["trojan", p.server, p.port,
            "password" ++ "=" ++ pgetStr p "password",
            "skip-cert-verify" ++ "="
              ++ (if pTruthy p "skip-cert-verify" then "true" else "false"),
            "sni" ++ "=" ++ pgetStr p "sni"]) := by
      apply parseStage1_line nm _ hnm
      · intro x hx
        simp only [List.mem_cons, List.not_mem_nil, or_false] at hx
        rcases hx with h | h | h | h | h | h <;> subst h
        · exact ⟨by decide, by decide, by decide⟩
        · exact ⟨hs.1, hs.2.2.1, hs.2.2.2⟩
        · exact ⟨hp.1, hp.2.2.1, hp.2.2.2⟩
        · exact fieldClean_lit ("password" ++ "=") _ (by decide) (by decide)
            (by decide) (by decide) hW
        · exact fieldClean_lit ("skip-cert-verify" ++ "=") _ (by decide) (by decide)
            (by decide) (by decide) hT
        · exact fieldClean_lit ("sni" ++ "=") _ (by decide) (by decide)
            (by decide) (by decide) hSni
      · intro hf h
        simp only [List.head?_cons, Option.some.injEq] at h
        subst h
        decide
      · intro lf h
        simp only [List.getLast?_cons_cons, List.getLast?_singleton,
          Option.some.injEq] at h
        subst h
        exact append_ne_empty_left _ _ (by decide)
      · simp
    rw [← hline] at hPL
    have hkv : kvBuild ["password" ++ "=" ++ pgetStr p "password",
          "skip-cert-verify" ++ "="
            ++ (if pTruthy p "skip-cert-verify" then "true" else "false"),
          "sni" ++ "=" ++ pgetStr p "sni"]
        = [("password", pgetStr p "password"),
           ("skip-cert-verify", if pTruthy p "skip-cert-verify" then "true" else "false"),
           ("sni", pgetStr p "sni")] := by
      unfold kvBuild
      simp only [List.foldl_cons, List.foldl_nil]
      rw [kvStep_eq [] "password" _ (by decide) (by decide) (cleanVal_trim _ hW)]
      rw [kvStep_eq _ "skip-cert-verify" _ (by decide) (by decide) (cleanVal_trim _ hT)]
      rw [kvStep_eq _ "sni" _ (by decide) (by decide) (cleanVal_trim _ hSni)]
      simp [ainsert]
    refine ⟨?_, hPL.1⟩
    unfold parseClashTextLine
    rw [hPL.2]
    dsimp only
    simp only [List.getD_cons_zero, List.getD_cons_succ, List.drop_succ_cons,
      List.drop_zero]
    rw [show slower "trojan" = "trojan" from by decide]
    rw [if_neg (by decide), if_neg (by decide), if_pos rfl]
    simp only [hkv]
    cases hscv : pTruthy p "skip-cert-verify" <;>
      simp [reqTuple, pgetStr, kvGet, kvHas, alookup, List.find?, pvStr, hty, hscv]

theorem roundtrip_http (nm : String) (p : Proxy)
    (hty : p.ptype = "http")
    (hnm : cleanName nm)
    (hs : cleanVal p.server) (hp : cleanVal p.port)
    (hv : ∀ v ∈ emittedVals p, cleanVal v) :
    (parseClashTextLine (surgeLineOf nm p)).map reqTuple = some (reqTuple p)
      ∧ loopVisible (surgeLineOf nm p) := by
  have hU : cleanVal (pgetStr p "username") := hv _ (by simp [emittedVals, hty])
  have hW : cleanVal (pgetStr p "password") := hv _ (by simp [emittedVals, hty])
  have hline : surgeLineOf nm p
      = nm ++ " = " ++ sjoin ", " ["http", p.server, p.port,
          "username" ++ "=" ++ pgetStr p "username",
          "password" ++ "=" ++ pgetStr p "password"] := by
    apply strEq_of_data
    unfold surgeLineOf
    rw [hty]
    simp [String.data_append, sjoin, List.append_assoc]
  have hPL : loopVisible (nm ++ " = " ++ sjoin ", " ["http", p.server, p.port,
          "username" ++ "=" ++ pgetStr p "username",
          "password" ++ "=" ++ pgetStr p "password"])
      ∧ parseStage1 (nm ++ " = " ++ sjoin ", " ["http", p.server, p.port,
          "username" ++ "=" ++ pgetStr p "username",
          "password" ++ "=" ++ pgetStr p "password"])
        = some (nm, ["http", p.server, p.port,
          "username" ++ "=" ++ pgetStr p "username",
          "password" ++ "=" ++ pgetStr p "password"]) := by
    apply parseStage1_line nm _ hnm
    · intro x hx
      simp only [List.mem_cons, List.not_mem_nil, or_false] at hx
      rcases hx with h | h | h | h | h <;> subst h
      · exact ⟨by decide, by decide, by decide⟩
      · exact ⟨hs.1, hs.2.2.1, hs.2.2.2⟩
      · exact ⟨hp.1, hp.2.2.1, hp.2.2.2⟩
      · exact fieldClean_lit ("username" ++ "=") _ (by decide) (by decide)
          (by decide) (by decide) hU
      · exact fieldClean_lit ("password" ++ "=") _ (by decide) (by decide)
          (by decide) (by decide) hW
    · intro hf h
      simp only [List.head?_cons, Option.some.injEq] at h
      subst h
      decide
    · intro lf h
      simp only [List.getLast?_cons_cons, List.getLast?_singleton,
        Option.some.injEq] at h
      subst h
      exact append_ne_empty_left _ _ (by decide)
    · simp
  rw [← hline] at hPL
  have hkv : kvBuild ["username" ++ "=" ++ pgetStr p "username",
        "password" ++ "=" ++ pgetStr p "password"]
      = [("username", pgetStr p "username"), ("password", pgetStr p "password")] := by
    unfold kvBuild
    simp only [List.foldl_cons, List.foldl_nil]
    rw [kvStep_eq [] "username" _ (by decide) (by decide) (cleanVal_trim _ hU)]
    rw [kvStep_eq _ "password" _ (by decide) (by decide) (cleanVal_trim _ hW)]
    simp [ainsert]
  refine ⟨?_, hPL.1⟩
  unfold parseClashTextLine
  rw [hPL.2]
  dsimp only
  simp only [List.getD_cons_zero, List.getD_cons_succ, List.drop_succ_cons,
    List.drop_zero]
  rw [show slower "http" = "http" from by decide]
  rw [if_neg (by decide), if_neg (by decide), if_neg (by decide),
      if_pos (Or.inl rfl)]
  simp only [hkv]
  simp [reqTuple, pgetStr, kvGet, kvHas, alookup, List.find?, pvStr, hty]

theorem roundtrip_socks5 (nm : String) (p : Proxy)
    (hty : p.ptype = "socks5")
    (hnm : cleanName nm)
    (hs : cleanVal p.server) (hp : cleanVal p.port)
    (hv : ∀ v ∈ emittedVals p, cleanVal v) :
    (parseClashTextLine (surgeLineOf nm p)).map reqTuple = some (reqTuple p)
      ∧ loopVisible (surgeLineOf nm p) := by
  have hU : cleanVal (pgetStr p "username") := hv _ (by simp [emittedVals, hty])
  have hW : cleanVal (pgetStr p "password") := hv _ (by simp [emittedVals, hty])
  have hline : surgeLineOf nm p
      = nm ++ " = " ++ sjoin ", " ["socks5", p.server, p.port,
          "username" ++ "=" ++ pgetStr p "username",
          "password" ++ "=" ++ pgetStr p "password"] := by
    apply strEq_of_data
    unfold surgeLineOf
    rw [hty]
    simp [String.data_append, sjoin, List.append_assoc]
  have hPL : loopVisible (nm ++ " = " ++ sjoin ", " ["socks5", p.server, p.port,
          "username" ++ "=" ++ pgetStr p "username",
          "password" ++ "=" ++ pgetStr p "password"])
      ∧ parseStage1 (nm ++ " = " ++ sjoin ", " ["socks5", p.server, p.port,
          "username" ++ "=" ++ pgetStr p "username",
          "password" ++ "=" ++ pgetStr p "password"])
        = some (nm, ["socks5", p.server, p.port,
          "username" ++ "=" ++ pgetStr p "username",
          "password" ++ "=" ++ pgetStr p "password"]) := by
    apply parseStage1_line nm _ hnm
    · intro x hx
      simp only [List.mem_cons, List.not_mem_nil, or_false] at hx
      rcases hx with h | h | h | h | h <;> subst h
      · exact ⟨by decide, by decide, by decide⟩
      · exact ⟨hs.1, hs.2.2.1, hs.2.2.2⟩
      · exact ⟨hp.1, hp.2.2.1, hp.2.2.2⟩
      · exact fieldClean_lit ("username" ++ "=") _ (by decide) (by decide)
          (by decide) (by decide) hU
      · exact fieldClean_lit ("password" ++ "=") _ (by decide) (by decide)
          (by decide) (by decide) hW
    · intro hf h
      simp only [List.head?_cons, Option.some.injEq] at h
      subst h
      decide
    · intro lf h
      simp only [List.getLast?_cons_cons, List.getLast?_singleton,
        Option.some.injEq] at h
      subst h
      exact append_ne_empty_left _ _ (by decide)
    · simp
  rw [← hline] at hPL
  have hkv : kvBuild ["username" ++ "=" ++ pgetStr p "username",
        "password" ++ "=" ++ pgetStr p "password"]
      = [("username", pgetStr p "username"), ("password", pgetStr p "password")] := by
    unfold kvBuild
    simp only [List.foldl_cons, List.foldl_nil]
    rw [kvStep_eq [] "username" _ (by decide) (by decide) (cleanVal_trim _ hU)]
    rw [kvStep_eq _ "password" _ (by decide) (by decide) (cleanVal_trim _ hW)]
    simp [ainsert]
  refine ⟨?_, hPL.1⟩
  unfold parseClashTextLine
  rw [hPL.2]
  dsimp only
  simp only [List.getD_cons_zero, List.getD_cons_succ, List.drop_succ_cons,
    List.drop_zero]
  rw [show slower "socks5" = "socks5" from by decide]
  rw [if_neg (by decide), if_neg (by decide), if_neg (by decide),
      if_pos (Or.inr rfl)]
  simp only [hkv]
  simp [reqTuple, pgetStr, kvGet, kvHas, alookup, List.find?, pvStr, hty]

theorem roundtrip_snell (nm : String) (p : Proxy)
    (hty : p.ptype = "snell")
    (hnm : cleanName nm)
    (hs : cleanVal p.server) (hp : cleanVal p.port)
    (hv : ∀ v ∈ emittedVals p, cleanVal v) :
    (parseClashTextLine (surgeLineOf nm p)).map reqTuple = some (reqTuple p)
      ∧ loopVisible (surgeLineOf nm p) := by
  have hK : cleanVal (pgetStr p "psk") := hv _ (by simp [emittedVals, hty])
  have hVer : cleanVal (pgetStrD p "version" "2") := hv _ (by simp [emittedVals, hty])
  have hline : surgeLineOf nm p
      = nm ++ " = " ++ sjoin ", " ["snell", p.server, p.port,
          "psk" ++ "=" ++ pgetStr p "psk",
          "version" ++ "=" ++ pgetStrD p "version" "2"] := by
    apply strEq_of_data
    unfold surgeLineOf
    rw [hty]
    simp [String.data_append, sjoin, List.append_assoc]
  have hPL : loopVisible (nm ++ " = " ++ sjoin ", " ["snell", p.server, p.port,
          "psk" ++ "=" ++ pgetStr p "psk",
          "version" ++ "=" ++ pgetStrD p "version" "2"])
      ∧ parseStage1 (nm ++ " = " ++ sjoin ", " ["snell", p.server, p.port,
          "psk" ++ "=" ++ pgetStr p "psk",
          "version" ++ "=" ++ pgetStrD p "version" "2"])
        = some (nm, ["snell", p.server, p.port,
          "psk" ++ "=" ++ pgetStr p "psk",
          "version" ++ "=" ++ pgetStrD p "version" "2"]) := by
    apply parseStage1_line nm _ hnm
    · intro x hx
      simp only [List.mem_cons, List.not_mem_nil, or_false] at hx
      rcases hx with h | h | h | h | h <;> subst h
      · exact ⟨by decide, by decide, by decide⟩
      · exact ⟨hs.1, hs.2.2.1, hs.2.2.2⟩
      · exact ⟨hp.1, hp.2.2.1, hp.2.2.2⟩
      · exact fieldClean_lit ("psk" ++ "=") _ (by decide) (by decide)
          (by decide) (by decide) hK
      · exact fieldClean_lit ("version" ++ "=") _ (by decide) (by decide)
          (by decide) (by decide) hVer
    · intro hf h
      simp only [List.head?_cons, Option.some.injEq] at h
      subst h
      decide
    · intro lf h
      simp only [List.getLast?_cons_cons, List.getLast?_singleton,
        Option.some.injEq] at h
      subst h
      exact append_ne_empty_left _ _ (by decide)
    · simp
  rw [← hline] at hPL
  have hkv : kvBuild ["psk" ++ "=" ++ pgetStr p "psk",
        "version" ++ "=" ++ pgetStrD p "version" "2"]
      = [("psk", pgetStr p "psk"), ("version", pgetStrD p "version" "2")] := by
    unfold kvBuild
    simp only [List.foldl_cons, List.foldl_nil]
    rw [kvStep_eq [] "psk" _ (by decide) (by decide) (cleanVal_trim _ hK)]
    rw [kvStep_eq _ "version" _ (by decide) (by decide) (cleanVal_trim _ hVer)]
    simp [ainsert]
  refine ⟨?_, hPL.1⟩
  unfold parseClashTextLine
  rw [hPL.2]
  dsimp only
  simp only [List.getD_cons_zero, List.getD_cons_succ, List.drop_succ_cons,
    List.drop_zero]
  rw [show slower "snell" = "snell" from by decide]
  rw [if_neg (by decide), if_neg (by decide), if_neg (by decide),
      if_neg (by decide), if_pos rfl]
  simp only [hkv]
  simp [reqTuple, pgetStr, pgetStrD, kvGet, kvHas, alookup, List.find?, pvStr, hty]

/-- **C3** (corrected). Text-dialect round trip through the program's own
parser loop: for a record of one of the six protocol types the surge
serializer supports (`ss`, `vmess`, `trojan`, `http`, `socks5`, `snell`),
with a transportable display name (in particular not starting with the `[`
the scan treats as a section header) and transport-clean server, port and
emitted parameter values, the serialized surge line is accepted by the
clash text-dialect scan — not dropped as blank, comment, or section
header — parses to a record carrying the same
`(type, server, port, required-fields)` tuple, and is handed to
`add_proxy` exactly once. The claim's closed enum also lists `hysteria2`,
for which this fails, and bracket-prefixed display names are dropped by
the scan (see the counterexample). -/
theorem text_roundtrip (nm : String) (p : Proxy)
    (hty : p.ptype ∈ surgeTypes)
    (hnm : cleanName nm)
    (hs : cleanVal p.server) (hp : cleanVal p.port)
    (hv : ∀ v ∈ emittedVals p, cleanVal v) :
    ∃ q, parseClashTextLine (surgeLineOf nm p) = some q
      ∧ reqTuple q = reqTuple p
      ∧ ∀ (ek : List String) (pfx : String) (st : ClashState),
          clashSourceLines ek pfx st [surgeLineOf nm p]
            = addProxy ek st q pfx false := by
  have H : (parseClashTextLine (surgeLineOf nm p)).map reqTuple = some (reqTuple p)
      ∧ loopVisible (surgeLineOf nm p) := by
    simp only [surgeTypes, List.mem_cons, List.not_mem_nil, or_false] at hty
    rcases hty with h | h | h | h | h | h
    · exact roundtrip_ss nm p h hnm hs hp hv
    · exact roundtrip_vmess nm p h hnm hs hp hv
    · exact roundtrip_trojan nm p h hnm hs hp hv
    · exact roundtrip_http nm p h hnm hs hp hv
    · exact roundtrip_socks5 nm p h hnm hs hp hv
    · exact roundtrip_snell nm p h hnm hs hp hv
  obtain ⟨hmap, hvis⟩ := H
  obtain ⟨q, hq, hrq⟩ := Option.map_eq_some'.mp hmap
  refine ⟨q, hq, hrq, ?_⟩
  intro ek pfx st
  rw [clashSourceLines_single ek pfx st _ hvis, hq]

/-- Witness for the C3 theorem at a concrete `ss` record: the serialized
line survives the scan, re-parses, and reaches `add_proxy` once. -/
theorem text_roundtrip_witness :
    ∃ q, parseClashTextLine (surgeLineOf "HK 01"
        (Proxy.mk "A" "ss" "1.2.3.4" "443"
          [("cipher", PVal.s "aes-128-gcm"), ("password", PVal.s "pw")])) = some q
      ∧ reqTuple q = reqTuple (Proxy.mk "A" "ss" "1.2.3.4" "443"
          [("cipher", PVal.s "aes-128-gcm"), ("password", PVal.s "pw")])
      ∧ ∀ (ek : List String) (pfx : String) (st : ClashState),
          clashSourceLines ek pfx st [surgeLineOf "HK 01"
              (Proxy.mk "A" "ss" "1.2.3.4" "443"
                [("cipher", PVal.s "aes-128-gcm"), ("password", PVal.s "pw")])]
            = addProxy ek st q pfx false :=
  text_roundtrip "HK 01" _ (by decide) (by decide) (by decide) (by decide)
    (by decide)

/-- **C3 counterexample.** Two members of the claim's scope do not survive
the text-dialect round trip. (1) A `hysteria2` record — in the claim's
closed enum, with transport-clean name and fields — serializes to the
empty string (the serializer has no `hysteria2` branch), which parses to
nothing and is dropped by the scan, although the record itself has a
well-defined required-fields tuple. (2) A record whose display name
carries a bracket prefix (`[FP] HK 01`, the very shape the pipeline's own
prefix handling produces) serializes to a perfectly parseable line, but
the scan drops that line as a section header, so the node is lost
entirely — more than the claim's display-name-formatting exemption. -/
theorem text_roundtrip_fails :
    (cleanName "HK 01"
      ∧ cleanVal "1.2.3.4" ∧ cleanVal "443"
      ∧ surgeLineOf "HK 01"
          (Proxy.mk "A" "hysteria2" "1.2.3.4" "443" [("password", PVal.s "pw")]) = ""
      ∧ (parseClashTextLine (surgeLineOf "HK 01"
          (Proxy.mk "A" "hysteria2" "1.2.3.4" "443"
            [("password", PVal.s "pw")]))).map reqTuple = none
      ∧ reqTuple (Proxy.mk "A" "hysteria2" "1.2.3.4" "443" [("password", PVal.s "pw")])
          = some ("hysteria2", "1.2.3.4", "443", ["pw"])
      ∧ clashSourceLines [] "" initClash [surgeLineOf "HK 01"
          (Proxy.mk "A" "hysteria2" "1.2.3.4" "443" [("password", PVal.s "pw")])]
          = initClash)
    ∧ ((parseClashTextLine (surgeLineOf "[FP] HK 01"
          (Proxy.mk "A" "ss" "1.2.3.4" "443"
            [("cipher", PVal.s "aes-128-gcm"), ("password", PVal.s "pw")]))).map reqTuple
        = some (reqTuple (Proxy.mk "A" "ss" "1.2.3.4" "443"
            [("cipher", PVal.s "aes-128-gcm"), ("password", PVal.s "pw")]))
      ∧ clashSourceLines [] "" initClash [surgeLineOf "[FP] HK 01"
          (Proxy.mk "A" "ss" "1.2.3.4" "443"
            [("cipher", PVal.s "aes-128-gcm"), ("password", PVal.s "pw")])]
          = initClash) :=
  ⟨⟨by decide, by decide, by decide, by decide, by decide, by decide, rfl⟩,
   by decide, rfl⟩

end Converter
